import Mathlib

/-!
Formal model of the `docfold` engine-routing and evaluation subsystem.

The definitions below are a shallow embedding of the Python sources:
  * `src/docfold/engines/router.py`  (selection, batch orchestration, comparison)
  * `src/docfold/evaluation/metrics.py`  (CER / WER / reading-order metrics;
    the optional `jiwer` / `scipy` dependencies are modelled by their in-repo
    pure-Python fallbacks, which are the code that ships with the repository)
  * `src/docfold/evaluation/runner.py`  (per-pair scoring and aggregation)

Modelling conventions:
  * A Python `DocumentEngine` instance is a record of its observable data:
    `name`, `is_available()` (a cheap, deterministic check) and
    `supported_extensions`.
  * The effectful `engine.process(...)` call is an oracle parameter
    `po : String → String → Except String EngineResult` mapping
    (engine name, file path) to the call's outcome.
  * The registry dict `self._engines` is a list of engines in insertion
    order with name-keyed first-match lookup; theorems that depend on
    dict-key uniqueness take a `Nodup` hypothesis on the names.
  * `Path(file_path).suffix.lstrip(".").lower()` is abstracted by passing
    the computed extension `ext` (or an extension function) directly, and
    `os.getenv("ENGINE_DEFAULT")` by an `Option String` parameter.
  * Python truthiness of optional strings (`if engine_hint:`) is modelled
    by `strOpt`, which collapses `some ""` to `none`.
  * Floats are modelled by `ℚ`; the metric computations involved are exact.
-/

namespace Docfold

/-- Outcome shape produced by every engine adapter (`EngineResult` in
`engines/base.py`), restricted to the fields the routed layers inspect. -/
structure EngineResult where
  content : String
  processing_time_ms : Int
deriving DecidableEq, Repr

/-- Observable data of a registered `DocumentEngine`. -/
structure Engine where
  name : String
  available : Bool
  supported_extensions : List String
deriving DecidableEq, Repr

/-- The three selection failures raised by `EngineRouter.select`:
`ValueError` for an unknown hinted engine, `RuntimeError` for a hinted
engine that is registered but unavailable, and `ValueError` when no
suitable engine exists. -/
inductive SelectError where
  | unknownEngine (hint : String)
  | engineUnavailable (hint : String)
  | noSuitableEngine (ext : String)
deriving DecidableEq, Repr

/-- Router state: registry (insertion order), optional caller-supplied
fallback order, optional allow-list (`allowed_engines`, a set in Python). -/
structure EngineRouter where
  engines : List Engine
  fallback_order : Option (List String) := none
  allowed_engines : Option (List String) := none
deriving DecidableEq, Repr

/-- `_IMAGE_PRIORITY` from `router.py`. -/
def imagePriorityList : List String :=
  ["surya", "paddleocr", "tesseract", "docling", "mistral_ocr",
   "google_docai", "textract", "azure_docint", "zerox", "marker"]

/-- `_EXTENSION_PRIORITY` from `router.py`, as an association list in
source order. -/
def extensionPriorityMap : List (String × List String) :=
  [("pdf", ["docling", "mineru", "unstructured", "marker",
            "llamaparse", "mistral_ocr", "google_docai", "azure_docint", "textract",
            "zerox", "nougat", "surya", "pymupdf", "paddleocr", "tesseract"]),
   ("docx", ["docling", "marker", "unstructured", "llamaparse", "azure_docint"]),
   ("doc",  ["docling", "marker", "unstructured", "llamaparse", "azure_docint"]),
   ("pptx", ["docling", "marker", "unstructured", "llamaparse", "azure_docint"]),
   ("ppt",  ["docling", "marker", "unstructured", "llamaparse", "azure_docint"]),
   ("xlsx", ["docling", "marker", "unstructured", "llamaparse", "azure_docint"]),
   ("xls",  ["docling", "marker", "unstructured", "llamaparse", "azure_docint"]),
   ("odt",  ["marker", "unstructured"]),
   ("odp",  ["marker", "unstructured"]),
   ("ods",  ["marker", "unstructured"]),
   ("html", ["docling", "unstructured", "marker", "azure_docint"]),
   ("htm",  ["docling", "unstructured", "marker", "azure_docint"]),
   ("xml",  ["unstructured"]),
   ("md",   ["unstructured"]),
   ("rst",  ["unstructured"]),
   ("csv",  ["unstructured"]),
   ("tsv",  ["unstructured"]),
   ("txt",  ["unstructured"]),
   ("rtf",  ["unstructured"]),
   ("png",  imagePriorityList),
   ("jpg",  imagePriorityList),
   ("jpeg", imagePriorityList),
   ("tiff", imagePriorityList),
   ("tif",  imagePriorityList),
   ("bmp",  imagePriorityList),
   ("webp", imagePriorityList),
   ("gif",  ["google_docai"]),
   ("eml",  ["unstructured"]),
   ("msg",  ["unstructured"]),
   ("epub", ["unstructured", "marker"])]

/-- `_DEFAULT_FALLBACK` from `router.py`. -/
def defaultFallback : List String :=
  ["docling", "mineru", "unstructured", "marker",
   "llamaparse", "mistral_ocr", "google_docai", "azure_docint", "textract",
   "zerox", "nougat", "surya", "pymupdf", "paddleocr", "tesseract"]

/-- Python truthiness for an optional string: `None` and `""` are falsy. -/
def strOpt (o : Option String) : Option String :=
  match o with
  | some s => if s = "" then none else some s
  | none => none

/-- `EngineRouter.get`: dict lookup by engine name. -/
def EngineRouter.get (r : EngineRouter) (name : String) : Option Engine :=
  r.engines.find? (fun e => e.name == name)

/-- `EngineRouter._get_priority`. -/
def EngineRouter.get_priority (r : EngineRouter) (ext : String) : List String :=
  match r.fallback_order with
  | some fo => fo
  | none =>
    match extensionPriorityMap.find? (fun p => p.1 == ext) with
    | some p => p.2
    | none => defaultFallback

/-- The allow-list guard inside `_is_candidate`:
`if self._allowed_engines and engine.name not in self._allowed_engines`
(an empty set is falsy, hence no restriction). -/
def allowedBlocks (allowed : Option (List String)) (name : String) : Bool :=
  match allowed with
  | some l => !l.isEmpty && !(l.contains name)
  | none => false

/-- `EngineRouter._is_candidate`. -/
def EngineRouter.is_candidate (r : EngineRouter) (e : Engine) (ext : String) : Bool :=
  if !e.available then false
  else if allowedBlocks r.allowed_engines e.name then false
  else if ext != "" && !(e.supported_extensions.contains ext) then false
  else true

/-- One step of the priority-chain walk in `select` (stage 3): look the
name up in the registry and keep it when `_is_candidate` passes. -/
def EngineRouter.pickCandidate (r : EngineRouter) (ext : String)
    (n : String) : Option Engine :=
  match r.get n with
  | some e => if r.is_candidate e ext then some e else none
  | none => none

/-- Stage 2 of `select`: the `ENGINE_DEFAULT` environment default, used
only when it names a registered engine passing `_is_candidate`. -/
def EngineRouter.envPick (r : EngineRouter) (ext : String)
    (env_default : Option String) : Option Engine :=
  match strOpt env_default with
  | some d => r.pickCandidate ext d
  | none => none

/-- Stages 2–4 of `EngineRouter.select`: environment default, the
extension-aware priority chain, then any candidate in registration order. -/
def EngineRouter.selectAuto (r : EngineRouter) (ext : String)
    (env_default : Option String) : Except SelectError Engine :=
  match r.envPick ext env_default with
  | some e => .ok e
  | none =>
    match (r.get_priority ext).findSome? (r.pickCandidate ext) with
    | some e => .ok e
    | none =>
      match r.engines.find? (fun e => r.is_candidate e ext) with
      | some e => .ok e
      | none => .error (.noSuitableEngine ext)

/-- `EngineRouter.select`, with the file path abstracted to its computed
extension `ext`.  Stage 1 honours an explicit (truthy) hint: unknown name
fails, unavailable engine fails, otherwise the hinted engine is returned
even on an extension mismatch (which is only a logged warning). -/
def EngineRouter.select (r : EngineRouter) (ext : String)
    (engine_hint : Option String) (env_default : Option String) :
    Except SelectError Engine :=
  match strOpt engine_hint with
  | some h =>
    match r.get h with
    | none => .error (.unknownEngine h)
    | some e => if !e.available then .error (.engineUnavailable h) else .ok e
  | none => r.selectAuto ext env_default

/-- Router whose allow-list names only `beta`, while `alpha` is the sole
registered (available, pdf-capable) engine. -/
def allowRouterA : EngineRouter :=
  { engines :=
      [{ name := "alpha", available := true, supported_extensions := ["pdf"] }],
    allowed_engines := some ["beta"] }

/-- Router with two available pdf engines where only `beta` is
allow-listed, plus a router whose allow-list excludes everything. -/
def allowRouterB : EngineRouter :=
  { engines :=
      [{ name := "alpha", available := true, supported_extensions := ["pdf"] },
       { name := "beta", available := true, supported_extensions := ["pdf"] }],
    allowed_engines := some ["beta"] }

/-- Spec-worded qualification predicate for claim C4: an engine qualifies
when it is available, extension-compatible, and allow-listed (an absent or
empty — hence unconfigured — allow-list permits every engine). -/
def qualifiesSpec (r : EngineRouter) (ext : String) (e : Engine) : Bool :=
  e.available &&
  (ext == "" || e.supported_extensions.contains ext) &&
  (match r.allowed_engines with
   | some l => l.isEmpty || l.contains e.name
   | none => true)

/-- Spec-worded walk step for claim C4: keep a walked name when it is
registered and its engine qualifies. -/
def pickQualified (r : EngineRouter) (ext : String) (n : String) :
    Option Engine :=
  match r.get n with
  | some e => if qualifiesSpec r ext e then some e else none
  | none => none

/-- Registry for the C4 witness, priority case: both engines are
available for pdf; `docling` comes first in the built-in pdf priority
list even though `pymupdf` was registered first. -/
def priorityRouter : EngineRouter :=
  { engines :=
      [{ name := "pymupdf", available := true, supported_extensions := ["pdf"] },
       { name := "docling", available := true, supported_extensions := ["pdf"] }] }

/-- Registry for the C4 witness, registration-order case: `omega` is not
named in any priority list but supports pdf. -/
def unlistedRouter : EngineRouter :=
  { engines :=
      [{ name := "omega", available := true, supported_extensions := ["pdf"] }] }

/-- Registry for the C4 witness, failure case. -/
def emptyRouter : EngineRouter := { engines := [] }

/-- Concrete registry used by several witnesses: `alpha` is available for
`pdf` only, `beta` is registered but unavailable. -/
def sampleRouter : EngineRouter :=
  { engines :=
      [{ name := "alpha", available := true, supported_extensions := ["pdf"] },
       { name := "beta", available := false, supported_extensions := ["pdf"] }] }

/-- Progress-callback statuses emitted by `process_batch`. -/
inductive Status where
  | processing
  | completed
  | failed
deriving DecidableEq, Repr

/-- One invocation of the progress callback (`ProgressCallback` protocol):
keyword arguments passed by `_process_one`. -/
structure ProgressEvent where
  current : Nat
  total : Nat
  file_path : String
  engine_name : String
  status : Status
  result : Option EngineResult
  error : Option String
deriving DecidableEq, Repr

/-- Rendering of a selection exception to the string stored in
`BatchResult.errors` (Python `str(exc)`); the claims do not depend on the
exact wording, only on which error is raised. -/
def selectErrorMessage : SelectError → String
  | .unknownEngine h => "Unknown engine " ++ h
  | .engineUnavailable h => "Engine " ++ h ++ " is registered but not available."
  | .noSuitableEngine ext => "No available engine supports ." ++ ext

/-- Outcome oracle for the effectful `engine.process(...)` call:
(engine name, file path) to either a result or the raised error message. -/
def ProcessOracle : Type := String → String → Except String EngineResult

/-- `BatchResult` from `router.py`.  `results` and `errors` are the two
dicts in insertion order (`total_time_ms`, pure wall-clock measurement, is
outside the model). -/
structure BatchResult where
  results : List (String × EngineResult) := []
  errors : List (String × String) := []
  total : Nat := 0
  succeeded : Nat := 0
  failed : Nat := 0
deriving DecidableEq, Repr

/-- Python dict assignment `m[k] = v`: overwrite in place when the key
exists, append otherwise. -/
def dictInsert {α : Type} (m : List (String × α)) (k : String) (v : α) :
    List (String × α) :=
  if m.any (fun p => p.1 == k) then
    m.map (fun p => if p.1 == k then (k, v) else p)
  else m ++ [(k, v)]

/-- Python dict lookup `m.get(k)`. -/
def dictGet {α : Type} (m : List (String × α)) (k : String) : Option α :=
  (m.find? (fun p => p.1 == k)).map Prod.snd

/-- Key list of a modelled dict. -/
def keysOf {α : Type} (m : List (String × α)) : List String :=
  m.map Prod.fst

/-- What one `_process_one` task contributes: the file outcome and the
progress-callback invocations it makes, in order. -/
structure ItemStep where
  outcome : Except String (String × EngineResult)
  events : List ProgressEvent
deriving Repr

/-- The body of `_process_one` in `process_batch` for one file: select an
engine (a selection failure goes straight to the `except` block with
`engine_name` still `"unknown"`), emit the "processing" event, run the
engine, and emit the terminal "completed"/"failed" event.  `extOf`
abstracts `Path(fp).suffix.lstrip(".").lower()`. -/
def processOne (r : EngineRouter) (po : ProcessOracle)
    (engine_hint env_default : Option String) (extOf : String → String)
    (total idx : Nat) (fp : String) : ItemStep :=
  match r.select (extOf fp) engine_hint env_default with
  | .error err =>
    { outcome := .error (selectErrorMessage err),
      events := [{ current := idx + 1, total := total, file_path := fp,
                   engine_name := "unknown", status := .failed,
                   result := none, error := some (selectErrorMessage err) }] }
  | .ok eng =>
    match po eng.name fp with
    | .ok res =>
      { outcome := .ok (eng.name, res),
        events := [{ current := idx + 1, total := total, file_path := fp,
                     engine_name := eng.name, status := .processing,
                     result := none, error := none },
                   { current := idx + 1, total := total, file_path := fp,
                     engine_name := eng.name, status := .completed,
                     result := some res, error := none }] }
    | .error msg =>
      { outcome := .error msg,
        events := [{ current := idx + 1, total := total, file_path := fp,
                     engine_name := eng.name, status := .processing,
                     result := none, error := none },
                   { current := idx + 1, total := total, file_path := fp,
                     engine_name := eng.name, status := .failed,
                     result := none, error := some msg }] }

/-- The per-file outcome independently of its batch position. -/
def itemOutcome (r : EngineRouter) (po : ProcessOracle)
    (engine_hint env_default : Option String) (extOf : String → String)
    (fp : String) : Except String (String × EngineResult) :=
  match r.select (extOf fp) engine_hint env_default with
  | .error err => .error (selectErrorMessage err)
  | .ok eng =>
    match po eng.name fp with
    | .ok res => .ok (eng.name, res)
    | .error msg => .error msg

/-- Whether a file succeeds in a batch run. -/
def itemSucceeds (r : EngineRouter) (po : ProcessOracle)
    (engine_hint env_default : Option String) (extOf : String → String)
    (fp : String) : Bool :=
  match itemOutcome r po engine_hint env_default extOf fp with
  | .ok _ => true
  | .error _ => false

/-- Mutation of the shared `batch` accumulator performed by one task:
record the result or the error and bump the matching counter. -/
def applyStep (b : BatchResult) (fp : String) (st : ItemStep) : BatchResult :=
  match st.outcome with
  | .ok p =>
    { b with results := dictInsert b.results fp p.2,
             succeeded := b.succeeded + 1 }
  | .error msg =>
    { b with errors := dictInsert b.errors fp msg,
             failed := b.failed + 1 }

/-- One fold step of the batch run: run `_process_one` for an indexed file
and merge its contribution. -/
def batchStep (r : EngineRouter) (po : ProcessOracle)
    (engine_hint env_default : Option String) (extOf : String → String)
    (total : Nat) (acc : BatchResult × List ProgressEvent)
    (p : Nat × String) : BatchResult × List ProgressEvent :=
  let st := processOne r po engine_hint env_default extOf total p.1 p.2
  (applyStep acc.1 p.2 st, acc.2 ++ st.events)

/-- `EngineRouter.process_batch`.  The semaphore-bounded `asyncio.gather`
interleaves tasks, but each task touches only its own file key, each
counter bump is atomic, and per-file outcomes are deterministic in the
model, so the final `BatchResult` and each file own event sequence are
those of this sequential fold. -/
def processBatch (r : EngineRouter) (po : ProcessOracle)
    (engine_hint env_default : Option String) (extOf : String → String)
    (file_paths : List String) : BatchResult × List ProgressEvent :=
  file_paths.enum.foldl
    (batchStep r po engine_hint env_default extOf file_paths.length)
    ({ total := file_paths.length }, [])

/-- The target list of `EngineRouter.compare` when no engine names are
given (or an empty, hence falsy, list is given): every available engine
supporting the extension. -/
def compareDefaultTargets (r : EngineRouter) (ext : String) : List Engine :=
  r.engines.filter (fun e =>
    e.available && (ext == "" || e.supported_extensions.contains ext))

/-- Lookup of one requested engine name in `compare`: kept only when
registered and available (unknown or unavailable names are silently
dropped). -/
def compareNamePick (r : EngineRouter) (n : String) : Option Engine :=
  match r.get n with
  | some e => if e.available then some e else none
  | none => none

/-- The target list of `EngineRouter.compare`: the looked-up requested
names, or every available extension-compatible engine when the engine
list is missing or empty (falsy). -/
def compareTargets (r : EngineRouter) (ext : String)
    (engines : Option (List String)) : List Engine :=
  match engines with
  | some names =>
    if names.isEmpty then compareDefaultTargets r ext
    else names.filterMap (compareNamePick r)
  | none => compareDefaultTargets r ext

/-- The loop body of `EngineRouter.compare`: a successful engine records
its result under its name, a failing engine contributes nothing. -/
def compareStep (po : ProcessOracle) (fp : String)
    (results : List (String × EngineResult)) (e : Engine) :
    List (String × EngineResult) :=
  match po e.name fp with
  | .ok res => dictInsert results e.name res
  | .error _ => results

/-- `EngineRouter.compare`: run every target on the file; a failing
engine contributes no entry to the result dict. -/
def compare (r : EngineRouter) (po : ProcessOracle) (ext fp : String)
    (engines : Option (List String)) : List (String × EngineResult) :=
  (compareTargets r ext engines).foldl (compareStep po fp) []

/-- Oracle for witnesses: every engine fails on `bad.pdf`, succeeds
elsewhere. -/
def samplePo : ProcessOracle := fun _ fp =>
  if fp = "bad.pdf" then .error "boom"
  else .ok { content := "ok", processing_time_ms := 5 }

/-- Oracle for witnesses that always fails. -/
def failPo : ProcessOracle := fun _ _ => .error "down"

/-- Oracle for witnesses: like `samplePo`, except that the `docling`
engine always fails. -/
def samplePoDoclingDown : ProcessOracle := fun en fp =>
  if en = "docling" then .error "down" else samplePo en fp

/-- Extension function for witnesses: every path is a pdf. -/
def sampleExtPdf : String → String := fun _ => "pdf"

/-- Extension function for witnesses: an unmapped extension. -/
def extXyz : String → String := fun _ => "xyz"

/-- Inner loop of the `_levenshtein_ratio` dynamic program: one sweep of
`for j in range(1, m + 1)`, carrying the remaining reference symbols, the
old row from index `j`, the old value at `j - 1` (`prev`), and the new
value at `j - 1`. -/
def levRowAux {α : Type} [DecidableEq α] (ci : α) :
    List α → List Nat → Nat → Nat → List Nat
  | [], _, _, _ => []
  | _ :: _, [], _, _ => []
  | bj :: bs, oj :: os, diag, left =>
    let cost := if ci = bj then 0 else 1
    let v := min (oj + 1) (min (left + 1) (diag + cost))
    v :: levRowAux ci bs os oj v

/-- One outer iteration of the dynamic program: the new row for symbol
`ci` at row index `i`, starting from the old row. -/
def levRow {α : Type} [DecidableEq α] (ci : α) (b : List α) (i : Nat)
    (old : List Nat) : List Nat :=
  i :: levRowAux ci b old.tail (old.headD 0) i

/-- The full `for i in range(1, n + 1)` sweep, starting from
`dp = list(range(m + 1))`. -/
def levFold {α : Type} [DecidableEq α] (a b : List α) : Nat × List Nat :=
  a.foldl (fun acc ci => (acc.1 + 1, levRow ci b (acc.1 + 1) acc.2))
    (0, List.range (b.length + 1))

/-- The dynamic program's final `dp[m]`. -/
def levenshteinDp {α : Type} [DecidableEq α] (a b : List α) : Nat :=
  (levFold a b).2.getLastD 0

/-- The reference-length-normalised error rate on symbol lists computed
by `_levenshtein_ratio` after tokenisation. -/
def levRateList {α : Type} [DecidableEq α] (a b : List α) : ℚ :=
  if b.isEmpty then (if a.isEmpty then 0 else (a.length : ℚ))
  else (levenshteinDp a b : ℚ) / (b.length : ℚ)

/-- Python `str.split()` with no separator: split on whitespace runs,
dropping empty tokens. -/
def pySplit (s : String) : List String :=
  (s.split (fun c => c.isWhitespace)).filter (fun w => w ≠ "")

/-- `_levenshtein_ratio` from `metrics.py` (the in-repo fallback used when
`jiwer` is not installed): characters when `char_level`, whitespace
tokens otherwise. -/
def levenshtein_rate (predicted reference : String) (char_level : Bool) : ℚ :=
  if char_level then levRateList predicted.data reference.data
  else levRateList (pySplit predicted) (pySplit reference)

/-- `compute_cer` from `metrics.py`. -/
def compute_cer (predicted reference : String) : ℚ :=
  if reference = "" then (if predicted = "" then 0 else (predicted.length : ℚ))
  else levenshtein_rate predicted reference true

/-- `compute_wer` from `metrics.py`. -/
def compute_wer (predicted reference : String) : ℚ :=
  if reference.trim = "" then
    (if predicted.trim = "" then 0 else ((pySplit predicted).length : ℚ))
  else levenshtein_rate predicted reference false

/-- Textbook Levenshtein distance, used as the specification the dynamic
program is proved against (uniform min-of-three recurrence). -/
def lev {α : Type} [DecidableEq α] : List α → List α → Nat
  | [], ys => ys.length
  | x :: xs, [] => (x :: xs).length
  | x :: xs, y :: ys =>
    let cost := if x = y then 0 else 1
    min (lev xs (y :: ys) + 1) (min (lev (x :: xs) ys + 1) (lev xs ys + cost))
termination_by xs ys => xs.length + ys.length
decreasing_by
  all_goals simp
  all_goals omega

/-- Specification of a dp row suffix: the distances from the reversed
consumed prefix `ra` to each extension of the reversed consumed reference
prefix `rb` by the remaining reference symbols. -/
def levSpecRow {α : Type} [DecidableEq α] (ra : List α) :
    List α → List α → List Nat
  | _, [] => []
  | rb, bj :: bs => lev ra (bj :: rb) :: levSpecRow ra (bj :: rb) bs

/-- Python dict-of-last-index: the value `{e: i for i, e in enumerate(l)}`
assigns to a present key (last occurrence wins); helper with running index
and accumulator. -/
def lastIdxAux : List String → String → Nat → Nat → Nat
  | [], _, _, acc => acc
  | x :: xs, e, i, acc => lastIdxAux xs e (i + 1) (if x = e then i else acc)

/-- Index of the last occurrence of `e` (0 when absent — such keys are
never looked up by `compute_reading_order_score`). -/
def lastIdx (l : List String) (e : String) : Nat := lastIdxAux l e 0 0

/-- The concordance loop of `compute_reading_order_score` (the in-repo
fallback for `scipy.stats.kendalltau`): the `i < j` double loop counting
concordant pairs, and the `(2c - t) / t` score. -/
def concordanceScore (n : Nat) (pred_ranks ref_ranks : List Int) : ℚ :=
  let pairs := (List.range n).flatMap
    (fun i => (List.range' (i + 1) (n - (i + 1))).map (fun j => (i, j)))
  let total := pairs.length
  let concordant := pairs.countP (fun p =>
    decide (0 < (pred_ranks.getD p.1 0 - pred_ranks.getD p.2 0)
        * (ref_ranks.getD p.1 0 - ref_ranks.getD p.2 0)))
  if 0 < total then ((2 * (concordant : Int) - (total : Int) : Int) : ℚ) / (total : ℚ)
  else 1

/-- `compute_reading_order_score` from `metrics.py`: `contains`, the
filter, the last-index dict and the rank lists mirror the source; the
correlation is the in-repo concordance fallback. -/
def compute_reading_order_score (predicted_order reference_order : List String) : ℚ :=
  let common := reference_order.filter (fun e => predicted_order.contains e)
  if common.length < 2 then
    (if common.length = reference_order.length then 1 else 0)
  else
    let pred_ranks : List Int := common.map (fun e => (lastIdx predicted_order e : Int))
    let ref_ranks : List Int := (List.range common.length).map (fun (i : Nat) => (i : Int))
    concordanceScore common.length pred_ranks ref_ranks

/-- The ground-truth sidecar record consumed by `_evaluate_single`
(`document_id`, `category`, and `ground_truth.full_text`, each optional
with the dict-get defaults of the source). -/
structure GroundTruth where
  document_id : Option String := none
  category : Option String := none
  full_text : String := ""
deriving DecidableEq, Repr

/-- `DocumentScore` from `runner.py`. -/
structure DocumentScore where
  document_id : String
  engine_name : String
  category : String
  cer : Option ℚ := none
  wer : Option ℚ := none
  table_f1 : Option ℚ := none
  heading_f1 : Option ℚ := none
  reading_order : Option ℚ := none
  processing_time_ms : Int := 0
  error : Option String := none
deriving DecidableEq, Repr

/-- `EngineRouter.process` (single-item use): select, then run the chosen
engine; a selection exception propagates as the error. -/
def routerProcess (r : EngineRouter) (po : ProcessOracle) (ext fp : String)
    (engine_hint env_default : Option String) : Except String EngineResult :=
  match r.select ext engine_hint env_default with
  | .error err => .error (selectErrorMessage err)
  | .ok eng => po eng.name fp

/-- `EvaluationRunner._evaluate_single`: force the engine by hint, catch
any selection/extraction failure into the `error` field, otherwise score
CER/WER against the ground-truth text when present. -/
def evaluateSingle (r : EngineRouter) (po : ProcessOracle)
    (env_default : Option String) (ext doc_path doc_stem : String)
    (ground_truth : GroundTruth) (engine_name : String) : DocumentScore :=
  let doc_id := ground_truth.document_id.getD doc_stem
  let category := ground_truth.category.getD "unknown"
  match routerProcess r po ext doc_path (some engine_name) env_default with
  | .error msg =>
    { document_id := doc_id, engine_name := engine_name,
      category := category, error := some msg }
  | .ok result =>
    let ref_text := ground_truth.full_text
    { document_id := doc_id, engine_name := engine_name,
      category := category,
      cer := if ref_text ≠ "" then some (compute_cer result.content ref_text) else none,
      wer := if ref_text ≠ "" then some (compute_wer result.content ref_text) else none,
      processing_time_ms := result.processing_time_ms }

/-- One per-engine summary dict produced by `_compute_summaries`. -/
structure EngineSummary where
  avg_cer : ℚ
  avg_wer : ℚ
  avg_time_ms : ℚ
  documents_evaluated : Nat
deriving DecidableEq, Repr

/-- The error-free scores grouped under one engine by the `defaultdict`
in `_compute_summaries`. -/
def okScoresFor (scores : List DocumentScore) (engine : String) :
    List DocumentScore :=
  (scores.filter (fun s => s.error == none)).filter
    (fun s => s.engine_name == engine)

/-- The aggregation body of `_compute_summaries` for one engine's group. -/
def summaryFor (sc_list : List DocumentScore) : EngineSummary :=
  let cers : List ℚ := sc_list.filterMap (fun s => s.cer)
  let wers : List ℚ := sc_list.filterMap (fun s => s.wer)
  let times : List Int := sc_list.map (fun s => s.processing_time_ms)
  { avg_cer := if cers.isEmpty then -1 else cers.sum / (cers.length : ℚ),
    avg_wer := if wers.isEmpty then -1 else wers.sum / (wers.length : ℚ),
    avg_time_ms := if times.isEmpty then -1
      else (times.sum : ℚ) / (times.length : ℚ),
    documents_evaluated := sc_list.length }

/-- First-occurrence deduplication with the already-seen keys carried in
an accumulator. -/
def firstDedupAux (seen : List String) : List String → List String
  | [] => []
  | x :: xs =>
    if seen.contains x then firstDedupAux seen xs
    else x :: firstDedupAux (x :: seen) xs

/-- First-occurrence deduplication, matching the key order in which the
`defaultdict` acquires its keys. -/
def firstDedup (l : List String) : List String := firstDedupAux [] l

/-- `EvaluationRunner._compute_summaries`: group the error-free scores by
engine name and aggregate each group. -/
def computeSummaries (scores : List DocumentScore) :
    List (String × EngineSummary) :=
  (firstDedup ((scores.filter (fun s => s.error == none)).map
      (fun s => s.engine_name))).map
    (fun eng => (eng, summaryFor (okScoresFor scores eng)))

/-- Score list for the C9 witness: engine `a` has one scored pair and one
errored pair; engine `b` has one succeeded pair with no ground-truth text
(no scorable CER/WER), exhibiting the `-1` sentinel. -/
def sampleScores : List DocumentScore :=
  [{ document_id := "d1", engine_name := "a", category := "c",
     cer := some 0, wer := some 0, processing_time_ms := 10 },
   { document_id := "d2", engine_name := "a", category := "c",
     error := some "x" },
   { document_id := "d3", engine_name := "b", category := "c",
     processing_time_ms := 4 }]

/-- Claim C2: with an explicit engine hint, `select` fails with an
unknown-engine error when the hinted name is not registered, fails with an
engine-unavailable error when it is registered but unavailable, and
otherwise returns exactly the hinted engine — independently of the file's
extension, since an extension mismatch is only a warning. -/
theorem C2_select_with_hint (r : EngineRouter) (ext h : String)
    (env : Option String) (hne : h ≠ "") :
    (r.get h = none →
      r.select ext (some h) env = .error (.unknownEngine h)) ∧
    (∀ e : Engine, r.get h = some e → e.available = false →
      r.select ext (some h) env = .error (.engineUnavailable h)) ∧
    (∀ e : Engine, r.get h = some e → e.available = true →
      r.select ext (some h) env = .ok e) := by
  refine ⟨?_, ?_, ?_⟩
  · intro hget
    simp [EngineRouter.select, strOpt, hne, hget]
  · intro e hget hav
    simp [EngineRouter.select, strOpt, hne, hget, hav]
  · intro e hget hav
    simp [EngineRouter.select, strOpt, hne, hget, hav]

/-- A successful `get` returns a registered engine. -/
theorem mem_of_get {r : EngineRouter} {n : String} {e : Engine}
    (h : r.get n = some e) : e ∈ r.engines :=
  List.mem_of_find?_eq_some h

/-- A successful `get` returns an engine carrying the looked-up name. -/
theorem name_of_get {r : EngineRouter} {n : String} {e : Engine}
    (h : r.get n = some e) : e.name = n := by
  have := List.find?_some h
  simpa using this

/-- Unfolding of `_is_candidate` into its three conjuncts. -/
theorem is_candidate_iff (r : EngineRouter) (e : Engine) (ext : String) :
    r.is_candidate e ext = true ↔
      e.available = true ∧
      allowedBlocks r.allowed_engines e.name = false ∧
      (ext = "" ∨ ext ∈ e.supported_extensions) := by
  unfold EngineRouter.is_candidate
  cases hav : e.available with
  | false => simp
  | true =>
    cases hb : allowedBlocks r.allowed_engines e.name with
    | true => simp [hb]
    | false =>
      by_cases hext : ext = ""
      · simp [hext, hb]
      · by_cases hmem : ext ∈ e.supported_extensions
        · simp [hext, hb, hmem]
        · simp [hext, hb, hmem]

/-- A successful priority-chain step returns a registered engine passing
`_is_candidate`, carrying the walked name. -/
theorem pickCandidate_some {r : EngineRouter} {ext n : String} {e : Engine}
    (h : r.pickCandidate ext n = some e) :
    r.get n = some e ∧ r.is_candidate e ext = true := by
  unfold EngineRouter.pickCandidate at h
  split at h
  next e' hg =>
    split at h
    next hc =>
      cases h
      exact ⟨hg, hc⟩
    next hc => cases h
  next hg => cases h

/-- If every registered engine fails `_is_candidate`, every
priority-chain step fails. -/
theorem pickCandidate_none {r : EngineRouter} {ext : String} (n : String)
    (h : ∀ e ∈ r.engines, r.is_candidate e ext = false) :
    r.pickCandidate ext n = none := by
  unfold EngineRouter.pickCandidate
  split
  next e' hg => simp [h e' (mem_of_get hg)]
  next => rfl

/-- If every registered engine fails `_is_candidate`, the automatic
selection stages all fail and `select` reports no suitable engine. -/
theorem selectAuto_all_fail {r : EngineRouter} {ext : String}
    (env : Option String)
    (h : ∀ e ∈ r.engines, r.is_candidate e ext = false) :
    r.selectAuto ext env = .error (.noSuitableEngine ext) := by
  unfold EngineRouter.selectAuto
  have henv : r.envPick ext env = none := by
    unfold EngineRouter.envPick
    cases strOpt env with
    | none => rfl
    | some d => exact pickCandidate_none d h
  rw [henv]
  have hfs : (r.get_priority ext).findSome? (r.pickCandidate ext) = none := by
    rw [List.findSome?_eq_none_iff]
    intro n _
    exact pickCandidate_none n h
  rw [hfs]
  have hfind : r.engines.find? (fun e => r.is_candidate e ext) = none := by
    rw [List.find?_eq_none]
    intro e he
    simp [h e he]
  rw [hfind]

/-- Any engine produced by the automatic stages is a registered engine
that passes `_is_candidate`. -/
theorem selectAuto_ok_candidate {r : EngineRouter} {ext : String}
    {env : Option String} {e : Engine}
    (h : r.selectAuto ext env = .ok e) :
    e ∈ r.engines ∧ r.is_candidate e ext = true := by
  unfold EngineRouter.selectAuto at h
  rcases henv : r.envPick ext env with _ | e₀
  · rw [henv] at h
    rcases hfs : (r.get_priority ext).findSome? (r.pickCandidate ext)
        with _ | e₁
    · rw [hfs] at h
      rcases hfind : r.engines.find? (fun e => r.is_candidate e ext)
          with _ | e₂
      · rw [hfind] at h
        exact absurd h (by simp)
      · rw [hfind] at h
        cases h
        exact ⟨List.mem_of_find?_eq_some hfind, by
          simpa using List.find?_some hfind⟩
    · rw [hfs] at h
      cases h
      obtain ⟨n, _, hn⟩ := List.exists_of_findSome?_eq_some hfs
      obtain ⟨hg, hc⟩ := pickCandidate_some hn
      exact ⟨mem_of_get hg, hc⟩
  · rw [henv] at h
    cases h
    unfold EngineRouter.envPick at henv
    rcases hso : strOpt env with _ | d
    · rw [hso] at henv
      cases henv
    · rw [hso] at henv
      obtain ⟨hg, hc⟩ := pickCandidate_some henv
      exact ⟨mem_of_get hg, hc⟩

/-- Counterexample to claim C3 as stated: the allow-list does NOT restrict
the explicit-hint stage.  Here the allow-list (`{"beta"}`) excludes the
available, pdf-compatible engine `alpha`, yet `select` with the explicit
hint `alpha` returns `alpha` instead of failing. -/
theorem C3_counterexample :
    allowedBlocks allowRouterA.allowed_engines "alpha" = true ∧
    allowRouterA.select "pdf" (some "alpha") none =
      .ok { name := "alpha", available := true,
            supported_extensions := ["pdf"] } := by
  constructor
  · decide
  · rfl

/-- Claim C3 (amended): the allow-list restricts the candidate set at the
automatic selection stages — environment default, priority chain, and
registration-order fallback — but not at the explicit-hint stage; and with
no (truthy) hint, if the allow-list blocks every available,
extension-compatible registered engine, `select` fails with the
no-suitable-engine error. -/
theorem C3_allow_list (r : EngineRouter) (ext : String)
    (engine_hint env : Option String) (hh : strOpt engine_hint = none) :
    (∀ e : Engine, r.select ext engine_hint env = .ok e →
      allowedBlocks r.allowed_engines e.name = false) ∧
    ((∀ e ∈ r.engines, e.available = true →
        (ext = "" ∨ ext ∈ e.supported_extensions) →
        allowedBlocks r.allowed_engines e.name = true) →
      r.select ext engine_hint env = .error (.noSuitableEngine ext)) := by
  have hsel : r.select ext engine_hint env = r.selectAuto ext env := by
    unfold EngineRouter.select
    rw [hh]
  constructor
  · intro e hok
    rw [hsel] at hok
    have hc := (selectAuto_ok_candidate hok).2
    have := (is_candidate_iff r e ext).mp hc
    exact this.2.1
  · intro hall
    rw [hsel]
    apply selectAuto_all_fail
    intro e he
    cases hc : r.is_candidate e ext with
    | false => rfl
    | true =>
      exfalso
      have h1 := (is_candidate_iff r e ext).mp hc
      have := hall e he h1.1 h1.2.2
      rw [h1.2.1] at this
      cases this

/-- Witness for C3 at concrete routers: on `allowRouterB` the automatic
selection returns an engine the allow-list permits, and on `allowRouterA`
(whose allow-list excludes its only engine) selection fails. -/
theorem C3_allow_list_witness :
    allowedBlocks allowRouterB.allowed_engines "beta" = false ∧
    allowRouterA.select "pdf" none none =
      .error (.noSuitableEngine "pdf") := by
  constructor
  · exact (C3_allow_list allowRouterB "pdf" none none rfl).1
      { name := "beta", available := true, supported_extensions := ["pdf"] }
      rfl
  · exact (C3_allow_list allowRouterA "pdf" none none rfl).2 (by decide)

/-- Unfolding of the spec-worded predicate. -/
theorem qualifiesSpec_iff (r : EngineRouter) (ext : String) (e : Engine) :
    qualifiesSpec r ext e = true ↔
      e.available = true ∧
      allowedBlocks r.allowed_engines e.name = false ∧
      (ext = "" ∨ ext ∈ e.supported_extensions) := by
  unfold qualifiesSpec
  cases hal : r.allowed_engines <;> simp [allowedBlocks] <;> tauto

/-- The source's `_is_candidate` agrees with the spec-worded predicate. -/
theorem is_candidate_eq_qualifiesSpec (r : EngineRouter) (ext : String)
    (e : Engine) : r.is_candidate e ext = qualifiesSpec r ext e := by
  cases hq : qualifiesSpec r ext e with
  | true => exact (is_candidate_iff r e ext).mpr ((qualifiesSpec_iff r ext e).mp hq)
  | false =>
    cases hc : r.is_candidate e ext with
    | false => rfl
    | true =>
      exfalso
      have h := (is_candidate_iff r e ext).mp hc
      have h2 := (qualifiesSpec_iff r ext e).mpr h
      rw [hq] at h2
      cases h2

/-- The source's walk step agrees with the spec-worded walk step. -/
theorem pickCandidate_eq_pickQualified (r : EngineRouter) (ext : String) :
    r.pickCandidate ext = pickQualified r ext := by
  funext n
  unfold EngineRouter.pickCandidate pickQualified
  cases r.get n with
  | none => rfl
  | some e => simp [is_candidate_eq_qualifiesSpec r ext e]

/-- Claim C4: with no (truthy) hint and no (truthy) environment default,
`select` returns the first engine of the walked priority list
(`_get_priority`: the caller-supplied fallback order if given, else the
extension's built-in list, else the generic default list) that is
registered, available, extension-compatible and allow-listed; failing
that, the first qualifying engine in registration order; failing that, the
no-suitable-engine error. -/
theorem C4_select_auto (r : EngineRouter) (ext : String)
    (engine_hint env : Option String)
    (hh : strOpt engine_hint = none) (he : strOpt env = none) :
    (∀ e : Engine,
      (r.get_priority ext).findSome? (pickQualified r ext) = some e →
      r.select ext engine_hint env = .ok e) ∧
    ((r.get_priority ext).findSome? (pickQualified r ext) = none →
      ∀ e : Engine, r.engines.find? (qualifiesSpec r ext) = some e →
      r.select ext engine_hint env = .ok e) ∧
    ((r.get_priority ext).findSome? (pickQualified r ext) = none →
      r.engines.find? (qualifiesSpec r ext) = none →
      r.select ext engine_hint env = .error (.noSuitableEngine ext)) := by
  have hsel : r.select ext engine_hint env = r.selectAuto ext env := by
    unfold EngineRouter.select
    rw [hh]
  have henv : r.envPick ext env = none := by
    unfold EngineRouter.envPick
    rw [he]
  have hpick : (fun e => r.is_candidate e ext) = qualifiesSpec r ext := by
    funext e
    exact is_candidate_eq_qualifiesSpec r ext e
  refine ⟨?_, ?_, ?_⟩
  · intro e hfs
    rw [hsel]
    unfold EngineRouter.selectAuto
    rw [henv, ← pickCandidate_eq_pickQualified r ext] at *
    rw [henv, hfs]
  · intro hfs e hfind
    rw [hsel]
    unfold EngineRouter.selectAuto
    rw [← pickCandidate_eq_pickQualified r ext] at hfs
    rw [← hpick] at hfind
    rw [henv, hfs, hfind]
  · intro hfs hfind
    rw [hsel]
    unfold EngineRouter.selectAuto
    rw [← pickCandidate_eq_pickQualified r ext] at hfs
    rw [← hpick] at hfind
    rw [henv, hfs, hfind]

/-- Witness for C4 at concrete routers: the priority list beats
registration order, an engine outside every priority list is still found
via the registration-order fallback, and an empty registry fails. -/
theorem C4_select_auto_witness :
    priorityRouter.select "pdf" none none =
      .ok { name := "docling", available := true,
            supported_extensions := ["pdf"] } ∧
    unlistedRouter.select "pdf" none none =
      .ok { name := "omega", available := true,
            supported_extensions := ["pdf"] } ∧
    emptyRouter.select "pdf" none none =
      .error (.noSuitableEngine "pdf") := by
  refine ⟨?_, ?_, ?_⟩
  · exact (C4_select_auto priorityRouter "pdf" none none rfl rfl).1
      { name := "docling", available := true, supported_extensions := ["pdf"] }
      (by decide)
  · exact (C4_select_auto unlistedRouter "pdf" none none rfl rfl).2.1
      (by decide)
      { name := "omega", available := true, supported_extensions := ["pdf"] }
      (by decide)
  · exact (C4_select_auto emptyRouter "pdf" none none rfl rfl).2.2
      (by decide) (by decide)

/-- Witness for C2 at a concrete router: unknown hint, unavailable hint,
and an available hint on a file whose extension the engine does not list. -/
theorem C2_select_with_hint_witness :
    sampleRouter.select "txt" (some "zeta") none =
        .error (.unknownEngine "zeta") ∧
    sampleRouter.select "txt" (some "beta") none =
        .error (.engineUnavailable "beta") ∧
    sampleRouter.select "txt" (some "alpha") none =
        .ok { name := "alpha", available := true,
              supported_extensions := ["pdf"] } := by
  refine ⟨?_, ?_, ?_⟩
  · exact (C2_select_with_hint sampleRouter "txt" "zeta" none (by decide)).1
      (by decide)
  · exact (C2_select_with_hint sampleRouter "txt" "beta" none (by decide)).2.1
      { name := "beta", available := false, supported_extensions := ["pdf"] }
      (by decide) (by decide)
  · exact (C2_select_with_hint sampleRouter "txt" "alpha" none (by decide)).2.2
      { name := "alpha", available := true, supported_extensions := ["pdf"] }
      (by decide) (by decide)

/-- Key membership after a dict assignment: the assigned key plus the old
keys. -/
theorem mem_keysOf_dictInsert {α : Type} (m : List (String × α))
    (k a : String) (v : α) :
    a ∈ keysOf (dictInsert m k v) ↔ a = k ∨ a ∈ keysOf m := by
  unfold dictInsert keysOf
  by_cases hany : m.any (fun p => p.1 == k) = true
  · rw [if_pos hany]
    have hmap : (m.map (fun p => if p.1 == k then (k, v) else p)).map Prod.fst
        = m.map Prod.fst := by
      rw [List.map_map]
      apply List.map_congr_left
      intro p _
      by_cases hpk : p.1 = k
      · simp [hpk]
      · simp [hpk]
    rw [hmap]
    have hk : k ∈ m.map Prod.fst := by
      rw [List.any_eq_true] at hany
      obtain ⟨p, hp, hpk⟩ := hany
      rw [List.mem_map]
      exact ⟨p, hp, eq_of_beq hpk⟩
    constructor
    · intro ha
      exact Or.inr ha
    · intro ha
      rcases ha with rfl | ha
      · exact hk
      · exact ha
  · rw [if_neg hany]
    rw [List.map_append]
    simp [or_comm]

/-- The recorded outcome of `_process_one` does not depend on the file's
batch position. -/
theorem processOne_outcome (r : EngineRouter) (po : ProcessOracle)
    (engine_hint env_default : Option String) (extOf : String → String)
    (total idx : Nat) (fp : String) :
    (processOne r po engine_hint env_default extOf total idx fp).outcome
      = itemOutcome r po engine_hint env_default extOf fp := by
  unfold processOne itemOutcome
  cases hsel : r.select (extOf fp) engine_hint env_default with
  | error err => simp [hsel]
  | ok eng =>
    cases hpo : po eng.name fp with
    | ok res => simp [hsel, hpo]
    | error msg => simp [hsel, hpo]

/-- Splitting of one batch fold step. -/
theorem batchStep_fst (r : EngineRouter) (po : ProcessOracle)
    (engine_hint env_default : Option String) (extOf : String → String)
    (total : Nat) (acc : BatchResult × List ProgressEvent)
    (p : Nat × String) :
    (batchStep r po engine_hint env_default extOf total acc p).1
      = applyStep acc.1 p.2
          (processOne r po engine_hint env_default extOf total p.1 p.2) := rfl

/-- The events contributed by one batch fold step. -/
theorem batchStep_snd (r : EngineRouter) (po : ProcessOracle)
    (engine_hint env_default : Option String) (extOf : String → String)
    (total : Nat) (acc : BatchResult × List ProgressEvent)
    (p : Nat × String) :
    (batchStep r po engine_hint env_default extOf total acc p).2
      = acc.2 ++ (processOne r po engine_hint env_default extOf total p.1 p.2).events := rfl

/-- `applyStep` on a successful outcome. -/
theorem applyStep_ok {st : ItemStep} {pr : String × EngineResult}
    (b : BatchResult) (fp : String) (h : st.outcome = .ok pr) :
    applyStep b fp st =
      { b with results := dictInsert b.results fp pr.2,
               succeeded := b.succeeded + 1 } := by
  unfold applyStep
  rw [h]

/-- `applyStep` on a failed outcome. -/
theorem applyStep_error {st : ItemStep} {msg : String}
    (b : BatchResult) (fp : String) (h : st.outcome = .error msg) :
    applyStep b fp st =
      { b with errors := dictInsert b.errors fp msg,
               failed := b.failed + 1 } := by
  unfold applyStep
  rw [h]

/-- `applyStep` never touches `total`. -/
theorem applyStep_total (b : BatchResult) (fp : String) (st : ItemStep) :
    (applyStep b fp st).total = b.total := by
  rcases h : st.outcome with msg | pr
  · rw [applyStep_error b fp h]
  · rw [applyStep_ok b fp h]

/-- `applyStep` bumps exactly one of the two counters. -/
theorem applyStep_counts (b : BatchResult) (fp : String) (st : ItemStep) :
    (applyStep b fp st).succeeded + (applyStep b fp st).failed
      = b.succeeded + b.failed + 1 := by
  rcases h : st.outcome with msg | pr
  · rw [applyStep_error b fp h]
    simp [Nat.add_assoc]
  · rw [applyStep_ok b fp h]
    simp [Nat.add_right_comm]

/-- The batch fold preserves `total`. -/
theorem foldl_batchStep_total (r : EngineRouter) (po : ProcessOracle)
    (engine_hint env_default : Option String) (extOf : String → String)
    (total : Nat) (l : List (Nat × String))
    (acc : BatchResult × List ProgressEvent) :
    ((l.foldl (batchStep r po engine_hint env_default extOf total) acc).1).total
      = acc.1.total := by
  induction l generalizing acc with
  | nil => rfl
  | cons p l ih =>
    rw [List.foldl_cons, ih, batchStep_fst]
    exact applyStep_total _ _ _

/-- Each processed file adds one to `succeeded + failed`. -/
theorem foldl_batchStep_counts (r : EngineRouter) (po : ProcessOracle)
    (engine_hint env_default : Option String) (extOf : String → String)
    (total : Nat) (l : List (Nat × String))
    (acc : BatchResult × List ProgressEvent) :
    ((l.foldl (batchStep r po engine_hint env_default extOf total) acc).1).succeeded
        + ((l.foldl (batchStep r po engine_hint env_default extOf total) acc).1).failed
      = acc.1.succeeded + acc.1.failed + l.length := by
  induction l generalizing acc with
  | nil => rfl
  | cons p l ih =>
    rw [List.foldl_cons, ih, batchStep_fst, applyStep_counts]
    simp only [List.length_cons]
    omega

/-- The batch fold emits each file's events in sequence. -/
theorem foldl_batchStep_events (r : EngineRouter) (po : ProcessOracle)
    (engine_hint env_default : Option String) (extOf : String → String)
    (total : Nat) (l : List (Nat × String))
    (acc : BatchResult × List ProgressEvent) :
    (l.foldl (batchStep r po engine_hint env_default extOf total) acc).2
      = acc.2 ++ l.flatMap
          (fun p => (processOne r po engine_hint env_default extOf total p.1 p.2).events) := by
  induction l generalizing acc with
  | nil => simp
  | cons p l ih =>
    rw [List.foldl_cons, ih]
    rw [List.flatMap_cons]
    rw [batchStep_snd]
    rw [List.append_assoc]

/-- Soundness of the two key sets: every key in `results` belongs to a
succeeding file, every key in `errors` to a failing one (outcomes are
deterministic per path in the model). -/
theorem foldl_batchStep_sound (r : EngineRouter) (po : ProcessOracle)
    (engine_hint env_default : Option String) (extOf : String → String)
    (total : Nat) (l : List (Nat × String))
    (acc : BatchResult × List ProgressEvent)
    (hres : ∀ fp, fp ∈ keysOf acc.1.results →
      itemSucceeds r po engine_hint env_default extOf fp = true)
    (herr : ∀ fp, fp ∈ keysOf acc.1.errors →
      itemSucceeds r po engine_hint env_default extOf fp = false) :
    (∀ fp, fp ∈ keysOf ((l.foldl (batchStep r po engine_hint env_default extOf total) acc).1).results →
      itemSucceeds r po engine_hint env_default extOf fp = true) ∧
    (∀ fp, fp ∈ keysOf ((l.foldl (batchStep r po engine_hint env_default extOf total) acc).1).errors →
      itemSucceeds r po engine_hint env_default extOf fp = false) := by
  induction l generalizing acc with
  | nil => exact ⟨hres, herr⟩
  | cons p l ih =>
    rw [List.foldl_cons]
    have hout := processOne_outcome r po engine_hint env_default extOf total p.1 p.2
    rcases hoc : (processOne r po engine_hint env_default extOf total p.1 p.2).outcome
        with msg | pr
    · apply ih
      · intro fp hfp
        rw [batchStep_fst, applyStep_error acc.1 p.2 hoc] at hfp
        exact hres fp hfp
      · intro fp hfp
        rw [batchStep_fst, applyStep_error acc.1 p.2 hoc] at hfp
        simp only at hfp
        rw [mem_keysOf_dictInsert] at hfp
        rcases hfp with rfl | hfp
        · unfold itemSucceeds
          rw [← hout, hoc]
        · exact herr fp hfp
    · apply ih
      · intro fp hfp
        rw [batchStep_fst, applyStep_ok acc.1 p.2 hoc] at hfp
        simp only at hfp
        rw [mem_keysOf_dictInsert] at hfp
        rcases hfp with rfl | hfp
        · unfold itemSucceeds
          rw [← hout, hoc]
        · exact hres fp hfp
      · intro fp hfp
        rw [batchStep_fst, applyStep_ok acc.1 p.2 hoc] at hfp
        exact herr fp hfp

/-- Keys already recorded survive the rest of the fold. -/
theorem foldl_batchStep_mono (r : EngineRouter) (po : ProcessOracle)
    (engine_hint env_default : Option String) (extOf : String → String)
    (total : Nat) (l : List (Nat × String))
    (acc : BatchResult × List ProgressEvent) (fp : String) :
    (fp ∈ keysOf acc.1.results →
      fp ∈ keysOf ((l.foldl (batchStep r po engine_hint env_default extOf total) acc).1).results) ∧
    (fp ∈ keysOf acc.1.errors →
      fp ∈ keysOf ((l.foldl (batchStep r po engine_hint env_default extOf total) acc).1).errors) := by
  induction l generalizing acc with
  | nil => exact ⟨id, id⟩
  | cons p l ih =>
    rw [List.foldl_cons]
    rcases hoc : (processOne r po engine_hint env_default extOf total p.1 p.2).outcome
        with msg | pr
    · constructor
      · intro hfp
        apply (ih _).1
        rw [batchStep_fst, applyStep_error acc.1 p.2 hoc]
        exact hfp
      · intro hfp
        apply (ih _).2
        rw [batchStep_fst, applyStep_error acc.1 p.2 hoc]
        simp only
        rw [mem_keysOf_dictInsert]
        exact Or.inr hfp
    · constructor
      · intro hfp
        apply (ih _).1
        rw [batchStep_fst, applyStep_ok acc.1 p.2 hoc]
        simp only
        rw [mem_keysOf_dictInsert]
        exact Or.inr hfp
      · intro hfp
        apply (ih _).2
        rw [batchStep_fst, applyStep_ok acc.1 p.2 hoc]
        exact hfp

/-- Every processed file lands in the key set matching its outcome. -/
theorem foldl_batchStep_covers (r : EngineRouter) (po : ProcessOracle)
    (engine_hint env_default : Option String) (extOf : String → String)
    (total : Nat) (l : List (Nat × String))
    (acc : BatchResult × List ProgressEvent) :
    ∀ p ∈ l,
      (itemSucceeds r po engine_hint env_default extOf p.2 = true →
        p.2 ∈ keysOf ((l.foldl (batchStep r po engine_hint env_default extOf total) acc).1).results) ∧
      (itemSucceeds r po engine_hint env_default extOf p.2 = false →
        p.2 ∈ keysOf ((l.foldl (batchStep r po engine_hint env_default extOf total) acc).1).errors) := by
  induction l generalizing acc with
  | nil =>
    intro p hp
    cases hp
  | cons q l ih =>
    intro p hp
    rw [List.foldl_cons]
    rcases List.mem_cons.mp hp with rfl | hp
    · have hout := processOne_outcome r po engine_hint env_default extOf total p.1 p.2
      rcases hoc : (processOne r po engine_hint env_default extOf total p.1 p.2).outcome
          with msg | pr
      · constructor
        · intro hs
          exfalso
          unfold itemSucceeds at hs
          rw [← hout, hoc] at hs
          cases hs
        · intro hs
          apply (foldl_batchStep_mono r po engine_hint env_default extOf total l _ p.2).2
          rw [batchStep_fst, applyStep_error acc.1 p.2 hoc]
          simp only
          rw [mem_keysOf_dictInsert]
          exact Or.inl rfl
      · constructor
        · intro hs
          apply (foldl_batchStep_mono r po engine_hint env_default extOf total l _ p.2).1
          rw [batchStep_fst, applyStep_ok acc.1 p.2 hoc]
          simp only
          rw [mem_keysOf_dictInsert]
          exact Or.inl rfl
        · intro hs
          exfalso
          unfold itemSucceeds at hs
          rw [← hout, hoc] at hs
          cases hs
    · exact ih _ p hp

/-- Claim C1: for every batch run, `total` equals the number of input
paths, `succeeded + failed = total`, and every input path ends up as a key
of exactly one of `results` and `errors` — never both, never neither. -/
theorem C1_process_batch (r : EngineRouter) (po : ProcessOracle)
    (engine_hint env_default : Option String) (extOf : String → String)
    (file_paths : List String) :
    (processBatch r po engine_hint env_default extOf file_paths).1.total
        = file_paths.length ∧
    (processBatch r po engine_hint env_default extOf file_paths).1.succeeded
        + (processBatch r po engine_hint env_default extOf file_paths).1.failed
      = (processBatch r po engine_hint env_default extOf file_paths).1.total ∧
    ∀ fp ∈ file_paths,
      (fp ∈ keysOf (processBatch r po engine_hint env_default extOf file_paths).1.results ∧
        fp ∉ keysOf (processBatch r po engine_hint env_default extOf file_paths).1.errors) ∨
      (fp ∉ keysOf (processBatch r po engine_hint env_default extOf file_paths).1.results ∧
        fp ∈ keysOf (processBatch r po engine_hint env_default extOf file_paths).1.errors) := by
  unfold processBatch
  refine ⟨?_, ?_, ?_⟩
  · rw [foldl_batchStep_total]
  · rw [foldl_batchStep_counts, foldl_batchStep_total]
    simp
  · intro fp hfp
    have hsound := foldl_batchStep_sound r po engine_hint env_default extOf
      file_paths.length file_paths.enum
      ({ total := file_paths.length }, [])
      (by intro fp h; cases h) (by intro fp h; cases h)
    have hfp2 : ∃ p ∈ file_paths.enum, p.2 = fp := by
      have hm : fp ∈ file_paths.enum.map Prod.snd := by
        rw [List.enum_map_snd]
        exact hfp
      rw [List.mem_map] at hm
      obtain ⟨p, hp, hps⟩ := hm
      exact ⟨p, hp, hps⟩
    obtain ⟨p, hp, rfl⟩ := hfp2
    have hcov := foldl_batchStep_covers r po engine_hint env_default extOf
      file_paths.length file_paths.enum
      ({ total := file_paths.length }, []) p hp
    cases hs : itemSucceeds r po engine_hint env_default extOf p.2 with
    | true =>
      left
      refine ⟨hcov.1 hs, ?_⟩
      intro hmem
      have hbad := hsound.2 p.2 hmem
      rw [hs] at hbad
      cases hbad
    | false =>
      right
      refine ⟨?_, hcov.2 hs⟩
      intro hmem
      have hbad := hsound.1 p.2 hmem
      rw [hs] at hbad
      cases hbad

/-- Claim C6 (amended): batch progress events are the per-file event
blocks in file order, and for each file the block is "processing" followed
by exactly one terminal event when selection succeeded ("completed" on
success, "failed" on extraction failure), but a single "failed" event with
no preceding "processing" event when selection itself failed. -/
theorem C6_progress_events (r : EngineRouter) (po : ProcessOracle)
    (engine_hint env_default : Option String) (extOf : String → String)
    (file_paths : List String) :
    ((processBatch r po engine_hint env_default extOf file_paths).2
      = file_paths.enum.flatMap
          (fun p => (processOne r po engine_hint env_default extOf
            file_paths.length p.1 p.2).events)) ∧
    ∀ total idx : Nat, ∀ fp : String,
      (∀ eng : Engine, ∀ res : EngineResult,
        r.select (extOf fp) engine_hint env_default = .ok eng →
        po eng.name fp = .ok res →
        (processOne r po engine_hint env_default extOf total idx fp).events.map
            ProgressEvent.status = [.processing, .completed]) ∧
      (∀ eng : Engine, ∀ msg : String,
        r.select (extOf fp) engine_hint env_default = .ok eng →
        po eng.name fp = .error msg →
        (processOne r po engine_hint env_default extOf total idx fp).events.map
            ProgressEvent.status = [.processing, .failed]) ∧
      (∀ err : SelectError,
        r.select (extOf fp) engine_hint env_default = .error err →
        (processOne r po engine_hint env_default extOf total idx fp).events.map
            ProgressEvent.status = [.failed]) := by
  constructor
  · unfold processBatch
    rw [foldl_batchStep_events]
    simp
  · intro total idx fp
    refine ⟨?_, ?_, ?_⟩
    · intro eng res hsel hpo
      unfold processOne
      simp [hsel, hpo]
    · intro eng msg hsel hpo
      unfold processOne
      simp [hsel, hpo]
    · intro err hsel
      unfold processOne
      simp [hsel]

/-- Counterexample to claim C6 as stated: when engine selection itself
fails for a file, the progress callback receives only a single "failed"
event — no "processing" event precedes it. -/
theorem C6_counterexample :
    (processBatch emptyRouter failPo none none extXyz ["a.xyz"]).2.map
        ProgressEvent.status = [Status.failed] ∧
    Status.processing ∉
      (processBatch emptyRouter failPo none none extXyz ["a.xyz"]).2.map
        ProgressEvent.status := by
  constructor
  · rfl
  · decide

/-- Witness for C6 at concrete inputs: successful selection with
successful and failing extraction, and failing selection. -/
theorem C6_progress_events_witness :
    (processOne priorityRouter samplePo none none sampleExtPdf 2 0
        "a.pdf").events.map ProgressEvent.status
      = [Status.processing, Status.completed] ∧
    (processOne priorityRouter samplePo none none sampleExtPdf 2 1
        "bad.pdf").events.map ProgressEvent.status
      = [Status.processing, Status.failed] ∧
    (processOne emptyRouter failPo none none extXyz 1 0
        "a.xyz").events.map ProgressEvent.status
      = [Status.failed] := by
  refine ⟨?_, ?_, ?_⟩
  · exact ((C6_progress_events priorityRouter samplePo none none sampleExtPdf
      ["a.pdf", "bad.pdf"]).2 2 0 "a.pdf").1
      { name := "docling", available := true, supported_extensions := ["pdf"] }
      { content := "ok", processing_time_ms := 5 } rfl rfl
  · exact ((C6_progress_events priorityRouter samplePo none none sampleExtPdf
      ["a.pdf", "bad.pdf"]).2 2 1 "bad.pdf").2.1
      { name := "docling", available := true, supported_extensions := ["pdf"] }
      "boom" rfl rfl
  · exact ((C6_progress_events emptyRouter failPo none none extXyz
      ["a.xyz"]).2 1 0 "a.xyz").2.2 (.noSuitableEngine "xyz") rfl

/-- Witness for C1 at a concrete batch where the second file fails. -/
theorem C1_process_batch_witness :
    ((processBatch priorityRouter samplePo none none sampleExtPdf
        ["a.pdf", "bad.pdf"]).1.succeeded
      + (processBatch priorityRouter samplePo none none sampleExtPdf
        ["a.pdf", "bad.pdf"]).1.failed
      = (processBatch priorityRouter samplePo none none sampleExtPdf
        ["a.pdf", "bad.pdf"]).1.total) ∧
    (("bad.pdf" ∈ keysOf (processBatch priorityRouter samplePo none none
          sampleExtPdf ["a.pdf", "bad.pdf"]).1.results ∧
      "bad.pdf" ∉ keysOf (processBatch priorityRouter samplePo none none
          sampleExtPdf ["a.pdf", "bad.pdf"]).1.errors) ∨
     ("bad.pdf" ∉ keysOf (processBatch priorityRouter samplePo none none
          sampleExtPdf ["a.pdf", "bad.pdf"]).1.results ∧
      "bad.pdf" ∈ keysOf (processBatch priorityRouter samplePo none none
          sampleExtPdf ["a.pdf", "bad.pdf"]).1.errors)) :=
  ⟨(C1_process_batch priorityRouter samplePo none none sampleExtPdf
      ["a.pdf", "bad.pdf"]).2.1,
   (C1_process_batch priorityRouter samplePo none none sampleExtPdf
      ["a.pdf", "bad.pdf"]).2.2 "bad.pdf" (by decide)⟩

/-- Lookup into a one-step-extended dict. -/
theorem dictGet_cons {α : Type} (p : String × α) (m : List (String × α))
    (a : String) :
    dictGet (p :: m) a = if p.1 = a then some p.2 else dictGet m a := by
  by_cases h : p.1 = a <;> simp [dictGet, List.find?_cons, h]

/-- Replacing the entries keyed `k` leaves every other lookup unchanged
and makes lookup at `k` return the new value when `k` occurs. -/
theorem dictGet_map_replace {α : Type} (k : String) (v : α) (a : String)
    (m : List (String × α)) :
    dictGet (m.map (fun p => if p.1 == k then (k, v) else p)) a
      = if a = k then (if m.any (fun p => p.1 == k) then some v else none)
        else dictGet m a := by
  induction m with
  | nil => by_cases h : a = k <;> simp [dictGet, h]
  | cons p m ih =>
    rw [List.map_cons]
    by_cases hpk : p.1 = k
    · have hhead : (if (p.1 == k) = true then (k, v) else p) = (k, v) := by
        simp [hpk]
      rw [hhead, dictGet_cons]
      by_cases ha : a = k
      · subst ha
        simp [hpk]
      · have hka : k ≠ a := fun h => ha h.symm
        rw [if_neg hka, if_neg ha, ih, if_neg ha, dictGet_cons]
        rw [if_neg (by rw [hpk]; exact hka)]
    · have hhead : (if (p.1 == k) = true then (k, v) else p) = p := by
        simp [hpk]
      have hpkb : (p.1 == k) = false := by simp [hpk]
      rw [hhead, dictGet_cons, ih, dictGet_cons]
      by_cases hpa : p.1 = a
      · have hak : ¬a = k := by
          intro h
          exact hpk (by rw [hpa, h])
        simp [hpa, hak]
      · simp only [if_neg hpa]
        by_cases ha : a = k
        · rw [if_pos ha, if_pos ha, List.any_cons, hpkb, Bool.false_or]
        · rw [if_neg ha, if_neg ha]

/-- Appending a fresh key: lookup at that key finds it, others unchanged. -/
theorem dictGet_append_single {α : Type} (m : List (String × α))
    (k a : String) (v : α)
    (hany : m.any (fun p => p.1 == k) = false) :
    dictGet (m ++ [(k, v)]) a = if a = k then some v else dictGet m a := by
  induction m with
  | nil =>
    by_cases h : a = k
    · simp [dictGet, h]
    · have hka : ¬k = a := fun hh => h hh.symm
      simp [dictGet, h, hka]
  | cons p m ih =>
    rw [List.any_cons] at hany
    have hp : (p.1 == k) = false := by
      cases hb : (p.1 == k)
      · rfl
      · rw [hb] at hany
        simp at hany
    have hpk : ¬p.1 = k := by simpa using hp
    have hm : m.any (fun p => p.1 == k) = false := by
      cases hb : m.any (fun p => p.1 == k)
      · rfl
      · rw [hb] at hany
        simp at hany
    rw [List.cons_append, dictGet_cons, dictGet_cons, ih hm]
    by_cases hpa : p.1 = a
    · have hak : ¬a = k := fun h => hpk (by rw [hpa, h])
      simp [hpa, hak]
    · by_cases ha : a = k <;> simp [hpa, ha, hpk]

/-- Python dict assignment, observed through lookup. -/
theorem dictGet_dictInsert {α : Type} (m : List (String × α))
    (k a : String) (v : α) :
    dictGet (dictInsert m k v) a = if a = k then some v else dictGet m a := by
  unfold dictInsert
  by_cases hany : m.any (fun p => p.1 == k) = true
  · rw [if_pos hany, dictGet_map_replace, hany]
    simp
  · rw [if_neg hany]
    cases hb : m.any (fun p => p.1 == k) with
    | false => exact dictGet_append_single m k a v hb
    | true => exact absurd hb hany

/-- `compareStep` on a successful engine call. -/
theorem compareStep_ok {po : ProcessOracle} {fp : String} {e : Engine}
    {res : EngineResult} (acc : List (String × EngineResult))
    (h : po e.name fp = .ok res) :
    compareStep po fp acc e = dictInsert acc e.name res := by
  simp [compareStep, h]

/-- `compareStep` on a failing engine call. -/
theorem compareStep_error {po : ProcessOracle} {fp : String} {e : Engine}
    {msg : String} (acc : List (String × EngineResult))
    (h : po e.name fp = .error msg) :
    compareStep po fp acc e = acc := by
  simp [compareStep, h]

/-- Every key of a compare fold is either inherited or the name of a
walked engine whose call succeeded. -/
theorem mem_keysOf_compareFold (po : ProcessOracle) (fp : String)
    (l : List Engine) (acc : List (String × EngineResult)) (k : String) :
    k ∈ keysOf (l.foldl (compareStep po fp) acc) →
      k ∈ keysOf acc ∨
      ∃ e ∈ l, e.name = k ∧ ∃ res, po e.name fp = .ok res := by
  induction l generalizing acc with
  | nil =>
    intro h
    exact Or.inl h
  | cons e l ih =>
    intro h
    rw [List.foldl_cons] at h
    rcases ih _ h with hacc | ⟨e', he', hn, res, hres⟩
    · rcases hpo : po e.name fp with msg | res
      · rw [compareStep_error acc hpo] at hacc
        exact Or.inl hacc
      · rw [compareStep_ok acc hpo] at hacc
        rw [mem_keysOf_dictInsert] at hacc
        rcases hacc with rfl | hacc
        · exact Or.inr ⟨e, List.mem_cons_self e l, rfl, res, hpo⟩
        · exact Or.inl hacc
    · exact Or.inr ⟨e', List.mem_cons_of_mem e he', hn, res, hres⟩

/-- A successful `compare` name lookup yields a registered, available
engine. -/
theorem compareNamePick_some {r : EngineRouter} {n : String} {e : Engine}
    (h : compareNamePick r n = some e) :
    r.get n = some e ∧ e.available = true := by
  unfold compareNamePick at h
  split at h
  next e' hg =>
    split at h
    next hav =>
      cases h
      exact ⟨hg, hav⟩
    next hav => cases h
  next hg => cases h

/-- The requested-names branch of `compareTargets`. -/
theorem compareTargets_some_of_ne_nil (r : EngineRouter) (ext : String)
    (names : List String) (h : names.isEmpty = false) :
    compareTargets r ext (some names)
      = names.filterMap (compareNamePick r) := by
  have hred : compareTargets r ext (some names)
      = if names.isEmpty = true then compareDefaultTargets r ext
        else names.filterMap (compareNamePick r) := rfl
  rw [hred, h]
  simp

/-- Claim C10: in `compare` with an explicit engine-name list, a name
that is not registered — or is registered but unavailable — is silently
skipped: `compare` still returns a result map, and that name is not among
its keys. -/
theorem C10_compare_skips_unknown (r : EngineRouter) (po : ProcessOracle)
    (ext fp : String) (names : List String) (n : String)
    (hmem : n ∈ names)
    (hn : r.get n = none ∨ ∃ e : Engine, r.get n = some e ∧ e.available = false) :
    n ∉ keysOf (compare r po ext fp (some names)) := by
  intro hk
  unfold compare at hk
  have hne : names.isEmpty = false := by
    cases names with
    | nil => cases hmem
    | cons a l => rfl
  rw [compareTargets_some_of_ne_nil r ext names hne] at hk
  rcases mem_keysOf_compareFold po fp _ [] n hk with h | ⟨e, he, hname, res, hres⟩
  · cases h
  · rw [List.mem_filterMap] at he
    obtain ⟨n', hn', hpick⟩ := he
    obtain ⟨hget, hav⟩ := compareNamePick_some hpick
    have : n' = n := by
      rw [← name_of_get hget, hname]
    subst this
    rcases hn with hnone | ⟨e', hsome, hunav⟩
    · rw [hnone] at hget
      cases hget
    · rw [hsome] at hget
      cases hget
      rw [hav] at hunav
      cases hunav

/-- Registry with an available and an unavailable pdf engine, used by the
C10 witness. -/
theorem C10_compare_skips_unknown_witness :
    "zeta" ∉ keysOf (compare sampleRouter samplePo "pdf" "a.pdf"
      (some ["zeta", "alpha", "beta"])) ∧
    "beta" ∉ keysOf (compare sampleRouter samplePo "pdf" "a.pdf"
      (some ["zeta", "alpha", "beta"])) := by
  constructor
  · exact C10_compare_skips_unknown sampleRouter samplePo "pdf" "a.pdf"
      ["zeta", "alpha", "beta"] "zeta" (by decide) (Or.inl (by decide))
  · exact C10_compare_skips_unknown sampleRouter samplePo "pdf" "a.pdf"
      ["zeta", "alpha", "beta"] "beta" (by decide)
      (Or.inr ⟨{ name := "beta", available := false,
                 supported_extensions := ["pdf"] }, by decide, rfl⟩)

/-- Changing the outcome of one engine's call does not change any other
key of the compare fold. -/
theorem compareFold_agree (po po2 : ProcessOracle) (fp en : String)
    (hpo : ∀ nm : String, nm ≠ en → po2 nm fp = po nm fp)
    (l : List Engine) :
    ∀ acc acc2 : List (String × EngineResult),
      (∀ k : String, k ≠ en → dictGet acc2 k = dictGet acc k) →
      ∀ k : String, k ≠ en →
        dictGet (l.foldl (compareStep po2 fp) acc2) k
          = dictGet (l.foldl (compareStep po fp) acc) k := by
  induction l with
  | nil => exact fun acc acc2 hacc => hacc
  | cons e l ih =>
    intro acc acc2 hacc
    rw [List.foldl_cons, List.foldl_cons]
    apply ih
    intro k hk
    by_cases hen : e.name = en
    · have step2 : ∀ b : List (String × EngineResult),
          ∀ k2 : String, k2 ≠ en →
          dictGet (compareStep po2 fp b e) k2 = dictGet b k2 := by
        intro b k2 hk2
        rcases h2 : po2 e.name fp with m2 | r2
        · rw [compareStep_error b h2]
        · rw [compareStep_ok b h2, dictGet_dictInsert]
          rw [if_neg (by rw [hen]; exact hk2)]
      have step1 : ∀ b : List (String × EngineResult),
          ∀ k2 : String, k2 ≠ en →
          dictGet (compareStep po fp b e) k2 = dictGet b k2 := by
        intro b k2 hk2
        rcases h1 : po e.name fp with m1 | r1
        · rw [compareStep_error b h1]
        · rw [compareStep_ok b h1, dictGet_dictInsert]
          rw [if_neg (by rw [hen]; exact hk2)]
      rw [step2 acc2 k hk, step1 acc k hk]
      exact hacc k hk
    · have heq := hpo e.name hen
      rcases h1 : po e.name fp with m1 | r1
      · rw [compareStep_error acc h1, compareStep_error acc2 (heq.trans h1)]
        exact hacc k hk
      · rw [compareStep_ok acc h1, compareStep_ok acc2 (heq.trans h1)]
        rw [dictGet_dictInsert, dictGet_dictInsert]
        by_cases hke : k = e.name
        · rw [if_pos hke, if_pos hke]
        · rw [if_neg hke, if_neg hke]
          exact hacc k hk

/-- Claim C5: per-item failures are downgraded to per-item data and are
isolated.  (a) In `compare`, an engine whose call fails contributes no
entry; (b) changing one engine's outcome leaves every other engine's
entry unchanged; (c) in the evaluation runner, a selection or extraction
failure yields a `DocumentScore` whose `error` field carries the message
(and nothing else is scored); (d) in a batch run, a failing file is
recorded under its path in `errors` — the operations themselves are total
functions, so no failure aborts them. -/
theorem C5_failure_downgraded :
    (∀ (r : EngineRouter) (po : ProcessOracle) (ext fp : String)
        (engines : Option (List String)) (en msg : String),
      po en fp = .error msg →
      en ∉ keysOf (compare r po ext fp engines)) ∧
    (∀ (r : EngineRouter) (po po2 : ProcessOracle) (ext fp : String)
        (engines : Option (List String)) (en : String),
      (∀ nm : String, nm ≠ en → po2 nm fp = po nm fp) →
      ∀ k : String, k ≠ en →
        dictGet (compare r po2 ext fp engines) k
          = dictGet (compare r po ext fp engines) k) ∧
    (∀ (r : EngineRouter) (po : ProcessOracle) (env_default : Option String)
        (ext doc_path doc_stem : String) (gt : GroundTruth)
        (engine_name msg : String),
      routerProcess r po ext doc_path (some engine_name) env_default
          = .error msg →
      evaluateSingle r po env_default ext doc_path doc_stem gt engine_name
        = { document_id := gt.document_id.getD doc_stem,
            engine_name := engine_name,
            category := gt.category.getD "unknown",
            error := some msg }) ∧
    (∀ (r : EngineRouter) (po : ProcessOracle)
        (engine_hint env_default : Option String) (extOf : String → String)
        (file_paths : List String) (fp : String),
      fp ∈ file_paths →
      itemSucceeds r po engine_hint env_default extOf fp = false →
      fp ∈ keysOf (processBatch r po engine_hint env_default extOf
        file_paths).1.errors) := by
  refine ⟨?_, ?_, ?_, ?_⟩
  · intro r po ext fp engines en msg hmsg hk
    unfold compare at hk
    rcases mem_keysOf_compareFold po fp _ [] en hk
        with h | ⟨e, _, hname, res, hres⟩
    · cases h
    · rw [hname, hmsg] at hres
      cases hres
  · intro r po po2 ext fp engines en hpo k hk
    unfold compare
    exact compareFold_agree po po2 fp en hpo (compareTargets r ext engines)
      [] [] (fun _ _ => rfl) k hk
  · intro r po env_default ext doc_path doc_stem gt engine_name msg hmsg
    unfold evaluateSingle
    rw [hmsg]
  · intro r po engine_hint env_default extOf file_paths fp hfp hfail
    unfold processBatch
    have hfp2 : ∃ p ∈ file_paths.enum, p.2 = fp := by
      have hm : fp ∈ file_paths.enum.map Prod.snd := by
        rw [List.enum_map_snd]
        exact hfp
      rw [List.mem_map] at hm
      obtain ⟨p, hp, hps⟩ := hm
      exact ⟨p, hp, hps⟩
    obtain ⟨p, hp, rfl⟩ := hfp2
    exact (foldl_batchStep_covers r po engine_hint env_default extOf
      file_paths.length file_paths.enum
      ({ total := file_paths.length }, []) p hp).2 hfail

/-- Witness for C5 at concrete inputs: a failing engine is missing from a
concrete compare, a single engine's induced failure leaves another
engine's entry untouched, a hint for an unregistered engine becomes a
`DocumentScore` error, and a failing batch file lands in `errors`. -/
theorem C5_failure_downgraded_witness :
    "docling" ∉ keysOf (compare priorityRouter failPo "pdf" "a.pdf" none) ∧
    dictGet (compare priorityRouter samplePoDoclingDown "pdf" "a.pdf"
        (some ["docling", "pymupdf"])) "pymupdf"
      = dictGet (compare priorityRouter samplePo "pdf" "a.pdf"
        (some ["docling", "pymupdf"])) "pymupdf" ∧
    evaluateSingle emptyRouter failPo none "pdf" "doc.pdf" "doc" {} "zeta"
      = { document_id := "doc", engine_name := "zeta", category := "unknown",
          error := some (selectErrorMessage (.unknownEngine "zeta")) } ∧
    "bad.pdf" ∈ keysOf (processBatch priorityRouter samplePo none none
        sampleExtPdf ["a.pdf", "bad.pdf"]).1.errors := by
  refine ⟨?_, ?_, ?_, ?_⟩
  · exact C5_failure_downgraded.1 priorityRouter failPo "pdf" "a.pdf" none
      "docling" "down" rfl
  · exact C5_failure_downgraded.2.1 priorityRouter samplePo samplePoDoclingDown
      "pdf" "a.pdf" (some ["docling", "pymupdf"]) "docling"
      (by
        intro nm hnm
        simp [samplePoDoclingDown, hnm])
      "pymupdf" (by decide)
  · exact C5_failure_downgraded.2.2.1 emptyRouter failPo none "pdf" "doc.pdf"
      "doc" {} "zeta" (selectErrorMessage (.unknownEngine "zeta")) rfl
  · exact C5_failure_downgraded.2.2.2 priorityRouter samplePo none none
      sampleExtPdf ["a.pdf", "bad.pdf"] "bad.pdf" (by decide) rfl

/-- Membership in the first-occurrence deduplication. -/
theorem mem_firstDedupAux (a : String) :
    ∀ (l seen : List String),
      a ∈ firstDedupAux seen l ↔ (a ∈ l ∧ a ∉ seen) := by
  intro l
  induction l with
  | nil =>
    intro seen
    simp [firstDedupAux]
  | cons y ys ih =>
    intro seen
    unfold firstDedupAux
    by_cases hy : seen.contains y = true
    · rw [if_pos hy, ih seen, List.mem_cons]
      have hyseen : y ∈ seen := by simpa using hy
      constructor
      · rintro ⟨h1, h2⟩
        exact ⟨Or.inr h1, h2⟩
      · rintro ⟨h1 | h1, h2⟩
        · subst h1
          exact absurd hyseen h2
        · exact ⟨h1, h2⟩
    · rw [if_neg hy]
      have hyseen : y ∉ seen := by simpa using hy
      simp only [List.mem_cons, ih (y :: seen)]
      by_cases hay : a = y
      · subst hay
        simp [hyseen]
      · tauto

/-- Membership in the first-occurrence deduplication. -/
theorem mem_firstDedup (a : String) (l : List String) :
    a ∈ firstDedup l ↔ a ∈ l := by
  unfold firstDedup
  rw [mem_firstDedupAux]
  simp

/-- Lookup in a dict built by tagging each key with a computed value. -/
theorem dictGet_map_self (l : List String) (f : String → EngineSummary)
    (a : String) :
    dictGet (l.map (fun k => (k, f k))) a
      = if a ∈ l then some (f a) else none := by
  induction l with
  | nil => simp [dictGet]
  | cons x xs ih =>
    rw [List.map_cons, dictGet_cons, ih]
    by_cases hxa : x = a
    · subst hxa
      simp
    · have hax : ¬a = x := fun h => hxa h.symm
      simp [hxa, hax]

/-- The grouped error-free scores of one engine are the conjunction
filter. -/
theorem okScoresFor_eq_filter (scores : List DocumentScore) (eng : String) :
    okScoresFor scores eng
      = scores.filter (fun s => s.error == none && s.engine_name == eng) := by
  unfold okScoresFor
  rw [List.filter_filter]
  apply List.filter_congr
  intro s _
  exact Bool.and_comm _ _

/-- The `avg_cer` field of an aggregated group. -/
theorem summaryFor_avg_cer (L : List DocumentScore) :
    (summaryFor L).avg_cer
      = if (L.filterMap (fun s => s.cer)).isEmpty then -1
        else (L.filterMap (fun s => s.cer)).sum
          / ((L.filterMap (fun s => s.cer)).length : ℚ) := rfl

/-- The `avg_wer` field of an aggregated group. -/
theorem summaryFor_avg_wer (L : List DocumentScore) :
    (summaryFor L).avg_wer
      = if (L.filterMap (fun s => s.wer)).isEmpty then -1
        else (L.filterMap (fun s => s.wer)).sum
          / ((L.filterMap (fun s => s.wer)).length : ℚ) := rfl

/-- The `avg_time_ms` field of an aggregated group. -/
theorem summaryFor_avg_time_ms (L : List DocumentScore) :
    (summaryFor L).avg_time_ms
      = if ((L.map (fun s => s.processing_time_ms) : List Int)).isEmpty then -1
        else (((L.map (fun s => s.processing_time_ms) : List Int)).sum : ℚ)
          / (((L.map (fun s => s.processing_time_ms) : List Int)).length : ℚ) := rfl

/-- The `documents_evaluated` field of an aggregated group. -/
theorem summaryFor_documents_evaluated (L : List DocumentScore) :
    (summaryFor L).documents_evaluated = L.length := rfl

/-- Claim C9: every per-engine summary row aggregates over exactly the
error-free scores of that engine: `documents_evaluated` counts them,
CER/WER averages are taken over only the scorable (non-`None`) values
among them and fall back to the sentinel `-1` (distinct from `0`) when
none exist, and the processing-time average is over all of them. -/
theorem C9_engine_summaries (scores : List DocumentScore) (eng : String)
    (summary : EngineSummary)
    (h : dictGet (computeSummaries scores) eng = some summary) :
    (∃ s ∈ scores, s.error = none ∧ s.engine_name = eng) ∧
    summary.documents_evaluated
      = (scores.filter (fun s => s.error == none && s.engine_name == eng)).length ∧
    ((scores.filter (fun s => s.error == none && s.engine_name == eng)).filterMap
        (fun s => s.cer) = [] → summary.avg_cer = -1) ∧
    (∀ hcer : (scores.filter (fun s => s.error == none && s.engine_name == eng)).filterMap
        (fun s => s.cer) ≠ [],
      summary.avg_cer
        = ((scores.filter (fun s => s.error == none && s.engine_name == eng)).filterMap
            (fun s => s.cer)).sum
          / (((scores.filter (fun s => s.error == none && s.engine_name == eng)).filterMap
            (fun s => s.cer)).length : ℚ)) ∧
    ((scores.filter (fun s => s.error == none && s.engine_name == eng)).filterMap
        (fun s => s.wer) = [] → summary.avg_wer = -1) ∧
    (∀ hwer : (scores.filter (fun s => s.error == none && s.engine_name == eng)).filterMap
        (fun s => s.wer) ≠ [],
      summary.avg_wer
        = ((scores.filter (fun s => s.error == none && s.engine_name == eng)).filterMap
            (fun s => s.wer)).sum
          / (((scores.filter (fun s => s.error == none && s.engine_name == eng)).filterMap
            (fun s => s.wer)).length : ℚ)) ∧
    summary.avg_time_ms
      = ((((scores.filter (fun s => s.error == none && s.engine_name == eng)).map
          (fun s => s.processing_time_ms) : List Int).sum : Int) : ℚ)
        / ((((scores.filter (fun s => s.error == none && s.engine_name == eng)).map
          (fun s => s.processing_time_ms) : List Int)).length : ℚ) ∧
    (-1 : ℚ) ≠ 0 := by
  unfold computeSummaries at h
  rw [dictGet_map_self] at h
  by_cases hmem : eng ∈ firstDedup ((scores.filter
      (fun s => s.error == none)).map (fun s => s.engine_name))
  · rw [if_pos hmem] at h
    have hsum : summary = summaryFor (okScoresFor scores eng) := by
      cases h
      rfl
    have hex : ∃ s ∈ scores, s.error = none ∧ s.engine_name = eng := by
      rw [mem_firstDedup] at hmem
      rw [List.mem_map] at hmem
      obtain ⟨s, hs, hname⟩ := hmem
      rw [List.mem_filter] at hs
      refine ⟨s, hs.1, ?_, hname⟩
      simpa using hs.2
    have hgrp := okScoresFor_eq_filter scores eng
    have hne : (scores.filter (fun s => s.error == none && s.engine_name == eng)) ≠ [] := by
      obtain ⟨s, hs, herr, hname⟩ := hex
      intro hnil
      have : s ∈ scores.filter (fun s => s.error == none && s.engine_name == eng) := by
        rw [List.mem_filter]
        refine ⟨hs, ?_⟩
        simp [herr, hname]
      rw [hnil] at this
      cases this
    subst hsum
    refine ⟨hex, ?_, ?_, ?_, ?_, ?_, ?_, by norm_num⟩
    · rw [summaryFor_documents_evaluated, hgrp]
    · intro hcer
      rw [summaryFor_avg_cer, hgrp,
        if_pos (by simpa [List.isEmpty_iff] using hcer)]
    · intro hcer
      rw [summaryFor_avg_cer, hgrp,
        if_neg (by simpa [List.isEmpty_iff] using hcer)]
    · intro hwer
      rw [summaryFor_avg_wer, hgrp,
        if_pos (by simpa [List.isEmpty_iff] using hwer)]
    · intro hwer
      rw [summaryFor_avg_wer, hgrp,
        if_neg (by simpa [List.isEmpty_iff] using hwer)]
    · rw [summaryFor_avg_time_ms, hgrp,
        if_neg (by
          simp only [List.isEmpty_eq_true, List.map_eq_nil_iff]
          exact hne)]
  · rw [if_neg hmem] at h
    cases h

/-- Witness for C9 at a concrete score list: engine `b` has one succeeded
pair with no scorable CER, so its row exists and its CER average is the
sentinel. -/
theorem C9_engine_summaries_witness :
    (∃ s ∈ sampleScores, s.error = none ∧ s.engine_name = "b") ∧
    ((sampleScores.filter (fun s => s.error == none && s.engine_name == "b")).filterMap
        (fun s => s.cer) = [] →
      (summaryFor (okScoresFor sampleScores "b")).avg_cer = -1) ∧
    (-1 : ℚ) ≠ 0 := by
  refine ⟨?_, ?_, ?_⟩
  · exact (C9_engine_summaries sampleScores "b"
      (summaryFor (okScoresFor sampleScores "b")) rfl).1
  · exact (C9_engine_summaries sampleScores "b"
      (summaryFor (okScoresFor sampleScores "b")) rfl).2.2.1
  · exact (C9_engine_summaries sampleScores "b"
      (summaryFor (okScoresFor sampleScores "b")) rfl).2.2.2.2.2.2.2

/-- Distance from the empty list: pure insertions. -/
theorem lev_nil_left {α : Type} [DecidableEq α] (ys : List α) :
    lev ([] : List α) ys = ys.length := by
  rw [lev]

/-- Distance to the empty list: pure deletions. -/
theorem lev_nil_right {α : Type} [DecidableEq α] (xs : List α) :
    lev xs ([] : List α) = xs.length := by
  cases xs with
  | nil => rw [lev]
  | cons x xs => rw [lev]

/-- The three-way recurrence of the textbook distance. -/
theorem lev_cons_cons {α : Type} [DecidableEq α] (x y : α) (xs ys : List α) :
    lev (x :: xs) (y :: ys)
      = min (lev xs (y :: ys) + 1)
          (min (lev (x :: xs) ys + 1)
            (lev xs ys + if x = y then 0 else 1)) := by
  rw [lev]

/-- The distance of a list to itself is zero. -/
theorem lev_self {α : Type} [DecidableEq α] (xs : List α) :
    lev xs xs = 0 := by
  induction xs with
  | nil => rw [lev_nil_left]; rfl
  | cons x xs ih =>
    rw [lev_cons_cons, if_pos rfl, ih]
    simp

/-- Zero distance forces equality. -/
theorem lev_eq_zero {α : Type} [DecidableEq α] :
    ∀ xs ys : List α, lev xs ys = 0 → xs = ys := by
  intro xs
  induction xs with
  | nil =>
    intro ys h
    rw [lev_nil_left] at h
    rw [List.length_eq_zero] at h
    rw [h]
  | cons x xs ih =>
    intro ys h
    cases ys with
    | nil =>
      rw [lev_nil_right] at h
      cases h
    | cons y ys =>
      rw [lev_cons_cons] at h
      rw [Nat.min_eq_zero_iff, Nat.min_eq_zero_iff] at h
      rcases h with h | h | h
      · cases h
      · cases h
      · have hcost : (if x = y then 0 else 1) = 0 ∧ lev xs ys = 0 := by
          by_cases hxy : x = y
          · rw [if_pos hxy] at h ⊢
            exact ⟨rfl, by omega⟩
          · rw [if_neg hxy] at h
            omega
        have hxy : x = y := by
          rcases hcost with ⟨hc, _⟩
          by_cases hxy : x = y
          · exact hxy
          · rw [if_neg hxy] at hc
            cases hc
        rw [hxy, ih ys hcost.2]

/-- The inner dp sweep turns the row of distances from `ra` into the row
of distances from `ci :: ra`. -/
theorem levRowAux_spec {α : Type} [DecidableEq α] (ci : α) (ra : List α) :
    ∀ (bs rb : List α),
      levRowAux ci bs (levSpecRow ra rb bs) (lev ra rb) (lev (ci :: ra) rb)
        = levSpecRow (ci :: ra) rb bs := by
  intro bs
  induction bs with
  | nil => intro rb; rfl
  | cons bj bs ih =>
    intro rb
    rw [levSpecRow, levSpecRow, levRowAux]
    have hv : min (lev ra (bj :: rb) + 1)
        (min (lev (ci :: ra) rb + 1)
          (lev ra rb + if ci = bj then 0 else 1))
        = lev (ci :: ra) (bj :: rb) := by
      rw [lev_cons_cons]
    rw [hv, ih (bj :: rb)]

/-- The specification row for the empty consumed source is an arithmetic
progression, matching the dp initialisation `list(range(m + 1))`. -/
theorem levSpecRow_nil_left {α : Type} [DecidableEq α] :
    ∀ (bs rb : List α),
      levSpecRow ([] : List α) rb bs = List.range' (rb.length + 1) bs.length := by
  intro bs
  induction bs with
  | nil => intro rb; rfl
  | cons bj bs ih =>
    intro rb
    rw [levSpecRow, lev_nil_left, List.length_cons]
    rw [show (bj :: bs).length = bs.length + 1 from rfl, List.range'_succ]
    rw [ih (bj :: rb), List.length_cons]

/-- One outer dp iteration preserves the row invariant. -/
theorem levRow_spec {α : Type} [DecidableEq α] (ci : α) (b ra : List α) :
    levRow ci b (ra.length + 1) (lev ra [] :: levSpecRow ra [] b)
      = lev (ci :: ra) [] :: levSpecRow (ci :: ra) [] b := by
  unfold levRow
  rw [List.tail_cons, List.headD_cons]
  rw [lev_nil_right, lev_nil_right]
  have h1 : ra.length + 1 = (ci :: ra).length := rfl
  rw [List.length_cons]
  have := levRowAux_spec ci ra b ([] : List α)
  rw [lev_nil_right, lev_nil_right, List.length_cons] at this
  rw [this]

/-- The dp fold maintains the row invariant over any remaining input. -/
theorem levFold_go {α : Type} [DecidableEq α] (b : List α) :
    ∀ (rest ra : List α),
      rest.foldl (fun acc ci => (acc.1 + 1, levRow ci b (acc.1 + 1) acc.2))
        (ra.length, lev ra [] :: levSpecRow ra [] b)
        = ((rest.reverse ++ ra).length,
           lev (rest.reverse ++ ra) [] :: levSpecRow (rest.reverse ++ ra) [] b) := by
  intro rest
  induction rest with
  | nil =>
    intro ra
    simp
  | cons ci rest ih =>
    intro ra
    rw [List.foldl_cons]
    have hstep : ((ra.length, lev ra [] :: levSpecRow ra [] b).1 + 1,
        levRow ci b ((ra.length, lev ra [] :: levSpecRow ra [] b).1 + 1)
          (ra.length, lev ra [] :: levSpecRow ra [] b).2)
        = ((ci :: ra).length, lev (ci :: ra) [] :: levSpecRow (ci :: ra) [] b) := by
      simp only
      rw [levRow_spec]
      rfl
    rw [hstep, ih (ci :: ra)]
    have : rest.reverse ++ (ci :: ra) = (ci :: rest).reverse ++ ra := by
      rw [List.reverse_cons, List.append_assoc]
      rfl
    rw [this]

/-- After the full sweep the dp row holds the distances from the reversed
input to the reversed reference prefixes. -/
theorem levFold_spec {α : Type} [DecidableEq α] (a b : List α) :
    levFold a b = (a.length, lev a.reverse [] :: levSpecRow a.reverse [] b) := by
  unfold levFold
  have hinit : (0, List.range (b.length + 1))
      = ((([] : List α)).length, lev ([] : List α) [] :: levSpecRow ([] : List α) [] b) := by
    rw [levSpecRow_nil_left, lev_nil_right]
    rw [List.range_eq_range']
    rfl
  rw [hinit, levFold_go b a []]
  simp

/-- The last entry of an invariant row is the distance to the full
reversed reference. -/
theorem getLastD_cons_levSpecRow {α : Type} [DecidableEq α] (ra : List α) :
    ∀ (bs rb : List α) (d : Nat),
      (lev ra rb :: levSpecRow ra rb bs).getLastD d = lev ra (bs.reverse ++ rb) := by
  intro bs
  induction bs with
  | nil =>
    intro rb d
    rfl
  | cons bj bs ih =>
    intro rb d
    rw [levSpecRow, List.getLastD_cons, ih (bj :: rb) (lev ra rb)]
    rw [List.reverse_cons, List.append_assoc]
    rfl

/-- The dynamic program of `_levenshtein_ratio` computes the textbook
Levenshtein distance (of the reversed lists, which is the same metric). -/
theorem levenshteinDp_eq_lev {α : Type} [DecidableEq α] (a b : List α) :
    levenshteinDp a b = lev a.reverse b.reverse := by
  unfold levenshteinDp
  rw [levFold_spec]
  simp only
  have := getLastD_cons_levSpecRow a.reverse b ([] : List α) 0
  rw [List.append_nil] at this
  exact this

/-- The dp distance of a list to itself is zero. -/
theorem levenshteinDp_self {α : Type} [DecidableEq α] (a : List α) :
    levenshteinDp a a = 0 := by
  rw [levenshteinDp_eq_lev]
  exact lev_self a.reverse

/-- Zero dp distance forces equality. -/
theorem levenshteinDp_eq_zero {α : Type} [DecidableEq α] (a b : List α)
    (h : levenshteinDp a b = 0) : a = b := by
  rw [levenshteinDp_eq_lev] at h
  have := lev_eq_zero a.reverse b.reverse h
  rw [← List.reverse_inj]
  exact this


/-- A non-empty string has non-empty character data. -/
theorem data_ne_nil_of_ne_empty {p : String} (h : p ≠ "") : p.data ≠ [] := by
  intro hd
  exact h (String.ext hd)

/-- Claim C7: `compute_cer` is `0` on equal strings; it is strictly
positive on non-empty strings sharing no character; on an empty reference
it is `0` for an empty prediction and exactly the predicted length
otherwise — never a division by zero. -/
theorem C7_compute_cer (p r : String) :
    compute_cer p p = 0 ∧
    (p ≠ "" → r ≠ "" → (∀ c ∈ p.data, c ∉ r.data) → 0 < compute_cer p r) ∧
    compute_cer "" "" = 0 ∧
    (p ≠ "" → compute_cer p "" = (p.length : ℚ)) := by
  refine ⟨?_, ?_, ?_, ?_⟩
  · by_cases hp : p = ""
    · subst hp
      rfl
    · unfold compute_cer
      rw [if_neg hp]
      unfold levenshtein_rate
      rw [if_pos rfl]
      unfold levRateList
      rw [if_neg (by
        rw [List.isEmpty_eq_true]
        exact data_ne_nil_of_ne_empty hp)]
      rw [levenshteinDp_self]
      simp
  · intro hp hr hdisj
    unfold compute_cer
    rw [if_neg hr]
    unfold levenshtein_rate
    rw [if_pos rfl]
    unfold levRateList
    rw [if_neg (by
      rw [List.isEmpty_eq_true]
      exact data_ne_nil_of_ne_empty hr)]
    apply div_pos
    · rw [Nat.cast_pos]
      apply Nat.pos_of_ne_zero
      intro hz
      have heq := levenshteinDp_eq_zero p.data r.data hz
      rcases hpd : p.data with _ | ⟨c, cs⟩
      · exact data_ne_nil_of_ne_empty hp hpd
      · have hc : c ∈ p.data := by
          rw [hpd]
          exact List.mem_cons_self c cs
        have hcr : c ∈ r.data := by
          rw [← heq, hpd]
          exact List.mem_cons_self c cs
        exact hdisj c hc hcr
    · rw [Nat.cast_pos]
      exact List.length_pos.mpr (data_ne_nil_of_ne_empty hr)
  · rfl
  · intro hp
    unfold compute_cer
    rw [if_pos rfl, if_neg hp]

/-- Witness for C7 at concrete strings. -/
theorem C7_compute_cer_witness :
    compute_cer "x" "x" = 0 ∧
    0 < compute_cer "ab" "cd" ∧
    compute_cer "" "" = 0 ∧
    compute_cer "xyz" "" = 3 := by
  refine ⟨?_, ?_, ?_, ?_⟩
  · exact (C7_compute_cer "x" "x").1
  · exact (C7_compute_cer "ab" "cd").2.1 (by decide) (by decide) (by decide)
  · exact (C7_compute_cer "" "").2.2.1
  · have h := (C7_compute_cer "xyz" "").2.2.2 (by decide)
    rw [h, show ("xyz".length : Nat) = 3 from rfl]
    norm_num

/-- The last-index accumulator is left alone by absent keys. -/
theorem lastIdxAux_not_mem (e : String) :
    ∀ (l : List String) (i acc : Nat), e ∉ l → lastIdxAux l e i acc = acc := by
  intro l
  induction l with
  | nil => intro i acc _; rfl
  | cons x xs ih =>
    intro i acc h
    rw [lastIdxAux]
    rw [List.mem_cons] at h
    push_neg at h
    rw [if_neg (fun hx => h.1 hx.symm)]
    exact ih (i + 1) acc h.2

/-- The last-index accumulator lands on the final occurrence. -/
theorem lastIdxAux_last_occ (e : String) :
    ∀ (l1 l2 : List String) (i acc : Nat), e ∉ l2 →
      lastIdxAux (l1 ++ e :: l2) e i acc = i + l1.length := by
  intro l1
  induction l1 with
  | nil =>
    intro l2 i acc h
    rw [List.nil_append, lastIdxAux, if_pos rfl]
    rw [lastIdxAux_not_mem e l2 (i + 1) i h]
    simp
  | cons x l1 ih =>
    intro l2 i acc h
    rw [List.cons_append, lastIdxAux]
    rw [ih l2 (i + 1) _ h]
    rw [List.length_cons]
    omega

/-- On a duplicate-free list, the dict-of-last-index of the `i`-th
element is `i`. -/
theorem lastIdx_getElem_of_nodup (l : List String) (hnd : l.Nodup)
    (i : Nat) (hi : i < l.length) : lastIdx l (l[i]) = i := by
  have hsplit : l = l.take i ++ l[i] :: l.drop (i + 1) := by
    conv_lhs => rw [← List.take_append_drop i l]
    rw [List.drop_eq_getElem_cons hi]
  have hnotmem : l[i] ∉ l.drop (i + 1) := by
    intro hmem
    rw [List.mem_iff_getElem] at hmem
    obtain ⟨k, hk, hget⟩ := hmem
    rw [List.getElem_drop] at hget
    have hik := (List.Nodup.getElem_inj_iff hnd).mp hget
    omega
  obtain ⟨e, he⟩ : ∃ e, l[i] = e := ⟨l[i], rfl⟩
  rw [he] at hsplit hnotmem ⊢
  unfold lastIdx
  rw [hsplit, lastIdxAux_last_occ e (l.take i) (l.drop (i + 1)) 0 0 hnotmem]
  rw [List.length_take]
  omega

/-- Ranks of a duplicate-free list within itself: `0, 1, ...`. -/
theorem map_lastIdx_self (l : List String) (hnd : l.Nodup) :
    l.map (fun e => (lastIdx l e : Int))
      = (List.range l.length).map (fun (i : Nat) => (i : Int)) := by
  apply List.ext_getElem
  · simp
  · intro i h1 h2
    rw [List.getElem_map, List.getElem_map, List.getElem_range]
    rw [List.length_map] at h1
    rw [lastIdx_getElem_of_nodup l hnd i h1]

/-- Ranks of a duplicate-free list within its reversal are reversed. -/
theorem map_lastIdx_reverse (l : List String) (hnd : l.Nodup) :
    l.map (fun e => (lastIdx l.reverse e : Int))
      = (List.range l.length).map (fun (i : Nat) => ((l.length - 1 - i : Nat) : Int)) := by
  apply List.ext_getElem
  · simp
  · intro i h1 h2
    rw [List.getElem_map, List.getElem_map, List.getElem_range]
    rw [List.length_map] at h1
    have hrev : l.length - 1 - i < l.reverse.length := by
      rw [List.length_reverse]
      omega
    have hget : l.reverse[l.length - 1 - i] = l[i] := by
      rw [List.getElem_reverse]
      congr 1
      omega
    rw [← hget]
    rw [lastIdx_getElem_of_nodup l.reverse (List.nodup_reverse.mpr hnd)
      (l.length - 1 - i) hrev]

/-- Indexing a range-map within bounds. -/
theorem getD_map_range (f : Nat → Int) (n i : Nat) (h : i < n) :
    (((List.range n).map f).getD i 0) = f i := by
  rw [List.getD_eq_getElem?_getD, List.getElem?_map, List.getElem?_range h]
  rfl

/-- Every pair walked by the concordance double loop has `i < j < n`. -/
theorem mem_pairs_bounds (n : Nat) (p : Nat × Nat)
    (hp : p ∈ (List.range n).flatMap
      (fun i => (List.range' (i + 1) (n - (i + 1))).map (fun j => (i, j)))) :
    p.1 < p.2 ∧ p.2 < n := by
  rw [List.mem_flatMap] at hp
  obtain ⟨i, hi, hmem⟩ := hp
  rw [List.mem_map] at hmem
  obtain ⟨j, hj, rfl⟩ := hmem
  rw [List.mem_range] at hi
  rw [List.mem_range'_1] at hj
  constructor
  · omega
  · omega

/-- With at least two ranks, the double loop walks at least one pair. -/
theorem pairs_ne_nil (n : Nat) (hn : 2 ≤ n) :
    0 < ((List.range n).flatMap
      (fun i => (List.range' (i + 1) (n - (i + 1))).map (fun j => (i, j)))).length := by
  apply List.length_pos.mpr
  intro hnil
  have hmem : ((0 : Nat), (1 : Nat)) ∈ (List.range n).flatMap
      (fun i => (List.range' (i + 1) (n - (i + 1))).map (fun j => (i, j))) := by
    rw [List.mem_flatMap]
    refine ⟨0, ?_, ?_⟩
    · rw [List.mem_range]
      omega
    · rw [List.mem_map]
      refine ⟨1, ?_, rfl⟩
      rw [List.mem_range'_1]
      omega
  rw [hnil] at hmem
  cases hmem


/-- A strictly concordant rank assignment scores `1`. -/
theorem concordanceScore_all (n : Nat) (hn : 2 ≤ n) (f g : Nat → Int)
    (h : ∀ i j : Nat, i < j → j < n → 0 < (f i - f j) * (g i - g j)) :
    concordanceScore n ((List.range n).map f) ((List.range n).map g) = 1 := by
  unfold concordanceScore
  rw [if_pos (pairs_ne_nil n hn)]
  have hcount : ((List.range n).flatMap
      (fun i => (List.range' (i + 1) (n - (i + 1))).map (fun j => (i, j)))).countP
      (fun p => decide (0 < (((List.range n).map f).getD p.1 0
          - ((List.range n).map f).getD p.2 0)
        * (((List.range n).map g).getD p.1 0
          - ((List.range n).map g).getD p.2 0)))
      = ((List.range n).flatMap
      (fun i => (List.range' (i + 1) (n - (i + 1))).map (fun j => (i, j)))).length := by
    rw [List.countP_eq_length]
    intro p hp
    obtain ⟨h1, h2⟩ := mem_pairs_bounds n p hp
    rw [getD_map_range f n p.1 (by omega), getD_map_range f n p.2 h2,
      getD_map_range g n p.1 (by omega), getD_map_range g n p.2 h2]
    rw [decide_eq_true_eq]
    exact h p.1 p.2 h1 h2
  rw [hcount]
  have hT : (0:ℚ) < (((List.range n).flatMap
      (fun i => (List.range' (i + 1) (n - (i + 1))).map (fun j => (i, j)))).length : ℚ) := by
    rw [Nat.cast_pos]
    exact pairs_ne_nil n hn
  rw [show ∀ T : Nat, ((2 * (T : Int) - (T : Int) : Int) : ℚ) = (T : ℚ) by
    intro T
    push_cast
    ring]
  rw [div_self (ne_of_gt hT)]

/-- A strictly discordant rank assignment scores `-1`. -/
theorem concordanceScore_none (n : Nat) (hn : 2 ≤ n) (f g : Nat → Int)
    (h : ∀ i j : Nat, i < j → j < n → (f i - f j) * (g i - g j) < 0) :
    concordanceScore n ((List.range n).map f) ((List.range n).map g) = -1 := by
  unfold concordanceScore
  rw [if_pos (pairs_ne_nil n hn)]
  have hcount : ((List.range n).flatMap
      (fun i => (List.range' (i + 1) (n - (i + 1))).map (fun j => (i, j)))).countP
      (fun p => decide (0 < (((List.range n).map f).getD p.1 0
          - ((List.range n).map f).getD p.2 0)
        * (((List.range n).map g).getD p.1 0
          - ((List.range n).map g).getD p.2 0)))
      = 0 := by
    rw [List.countP_eq_zero]
    intro p hp
    obtain ⟨h1, h2⟩ := mem_pairs_bounds n p hp
    rw [getD_map_range f n p.1 (by omega), getD_map_range f n p.2 h2,
      getD_map_range g n p.1 (by omega), getD_map_range g n p.2 h2]
    rw [decide_eq_true_eq]
    intro hpos
    exact absurd hpos (not_lt.mpr (le_of_lt (h p.1 p.2 h1 h2)))
  rw [hcount]
  have hT : (0:ℚ) < (((List.range n).flatMap
      (fun i => (List.range' (i + 1) (n - (i + 1))).map (fun j => (i, j)))).length : ℚ) := by
    rw [Nat.cast_pos]
    exact pairs_ne_nil n hn
  rw [show ∀ T : Nat, ((2 * ((0:Nat) : Int) - (T : Int) : Int) : ℚ) = -(T : ℚ) by
    intro T
    push_cast
    ring]
  rw [neg_div, div_self (ne_of_gt hT)]

/-- Claim C8: on identical duplicate-free orderings the reading-order
score is `1`; on the full reversal of a reference of length at least two
it is the minimum correlation `-1`; and with exactly one shared element
it is `1` when the reference has exactly one element and `0` otherwise. -/
theorem C8_reading_order (l predicted reference : List String) :
    (l.Nodup → compute_reading_order_score l l = 1) ∧
    (l.Nodup → 2 ≤ l.length →
      compute_reading_order_score l.reverse l = -1) ∧
    (reference.Nodup →
      (reference.filter (fun e => predicted.contains e)).length = 1 →
      (reference.length = 1 → compute_reading_order_score predicted reference = 1) ∧
      (reference.length ≠ 1 → compute_reading_order_score predicted reference = 0)) := by
  refine ⟨?_, ?_, ?_⟩
  · intro hnd
    unfold compute_reading_order_score
    dsimp only
    have hcommon : l.filter (fun e => l.contains e) = l :=
      List.filter_eq_self.mpr (fun a ha => List.elem_iff.mpr ha)
    rw [hcommon]
    by_cases hlen : l.length < 2
    · rw [if_pos hlen, if_pos rfl]
    · rw [if_neg hlen, map_lastIdx_self l hnd]
      exact concordanceScore_all l.length (by omega) _ _
        (fun i j hij hj => by
          apply mul_pos_of_neg_of_neg
          · omega
          · omega)
  · intro hnd hlen2
    unfold compute_reading_order_score
    dsimp only
    have hcommon : l.filter (fun e => l.reverse.contains e) = l :=
      List.filter_eq_self.mpr
        (fun a ha => List.elem_iff.mpr (List.mem_reverse.mpr ha))
    rw [hcommon]
    rw [if_neg (by omega), map_lastIdx_reverse l hnd]
    exact concordanceScore_none l.length hlen2 _ _
      (fun i j hij hj => by
        apply mul_neg_of_pos_of_neg
        · omega
        · omega)
  · intro hnd hone
    unfold compute_reading_order_score
    dsimp only
    rw [hone]
    rw [if_pos (by omega)]
    constructor
    · intro hlen1
      rw [if_pos hlen1.symm]
    · intro hlen1
      rw [if_neg (fun hh => hlen1 hh.symm)]

/-- Witness for C8 at concrete orderings. -/
theorem C8_reading_order_witness :
    compute_reading_order_score ["a", "b", "c"] ["a", "b", "c"] = 1 ∧
    compute_reading_order_score (["a", "b", "c"].reverse) ["a", "b", "c"] = -1 ∧
    compute_reading_order_score ["a", "x"] ["a"] = 1 ∧
    compute_reading_order_score ["a", "x"] ["a", "b"] = 0 := by
  refine ⟨?_, ?_, ?_, ?_⟩
  · exact (C8_reading_order ["a", "b", "c"] [] []).1 (by decide)
  · exact (C8_reading_order ["a", "b", "c"] [] []).2.1 (by decide) (by decide)
  · exact ((C8_reading_order [] ["a", "x"] ["a"]).2.2 (by decide) (by decide)).1
      (by decide)
  · exact ((C8_reading_order [] ["a", "x"] ["a", "b"]).2.2 (by decide) (by decide)).2
      (by decide)

end Docfold
